import Mathlib

/-!
# Verification of the crossword grid and generator core

A shallow embedding, in Lean 4, of the crossword-placement core of the
`islamic-crossword-tool` repository (`src/grid.py`, `src/generator.py`,
and the parts of `src/word_list.py` the generator consumes), together with
proofs of the frozen claims about that core.

Modelling conventions, used throughout:

* Python `str` words become `List Char`; `str.upper()` becomes
  `List.map Char.toUpper` (the word material handled by the tool is ASCII).
* The grid's cell dictionary, whose key set is always the full
  `rows × cols` rectangle, becomes a total function `Nat → Nat → Cell`
  read through the bounds-checking accessor `Grid.get_cell`; out-of-range
  reads give `none`, exactly as `dict.get` does in the source.
* Coordinates handed to the public operations are `Int`, since the source
  freely forms negative candidate coordinates (`start_col = c - i`).
* A Python method that can raise an uncaught exception is embedded with an
  outer `Option`/`Except Unit` layer whose `none`/`.error ()` value marks
  the raise; a method that returns `None` as an ordinary failure keeps an
  inner `Option` for that marker.
* A mutating method becomes a function returning the new `Grid` alongside
  its Python return value.
* The generator's use of the global `random` module is modelled by an
  explicit `RandSrc` argument: a stream of decisions indexed by how many
  random calls were made so far (the `Nat` counter threaded through).
-/

namespace Crossword

/-- `Direction` from `src/grid.py`: the two word orientations. -/
inductive Direction where
  | ACROSS
  | DOWN
deriving DecidableEq, Repr

/-- `Cell` from `src/grid.py`: one square of the grid, with its position,
optional letter, black flag, and optional clue number. -/
structure Cell where
  row : Int
  col : Int
  letter : Option Char
  is_black : Bool
  number : Option Nat
deriving DecidableEq, Repr

/-- A freshly constructed cell, as `Grid.__init__` makes them:
empty, white, unnumbered. -/
def Cell.init (r c : Int) : Cell :=
  { row := r, col := c, letter := none, is_black := false, number := none }

/-- `Cell.is_empty` from `src/grid.py`. -/
def Cell.is_empty (cell : Cell) : Bool :=
  cell.letter.isNone && !cell.is_black

/-- `Cell.is_filled` from `src/grid.py`. -/
def Cell.is_filled (cell : Cell) : Bool :=
  cell.letter.isSome

/-- `PlacedWord` from `src/grid.py`: a word committed to the grid. -/
structure PlacedWord where
  word : List Char
  clue : String
  row : Int
  col : Int
  direction : Direction
  number : Nat
deriving DecidableEq, Repr

/-- `PlacedWord.get_cells` from `src/grid.py`: the coordinates the word covers. -/
def PlacedWord.get_cells (pw : PlacedWord) : List (Int × Int) :=
  (List.range pw.word.length).map fun i =>
    match pw.direction with
    | .ACROSS => (pw.row, pw.col + (i : Int))
    | .DOWN => (pw.row + (i : Int), pw.col)

/-- `Grid` from `src/grid.py`.  The cell dictionary always covers exactly the
`rows × cols` rectangle, so it is embedded as the total function `content`
read through the bounds check of `Grid.get_cell`; indices at or beyond the
bounds carry the inert `Cell.init` value so that grids can be compared as
whole structures. -/
@[ext]
structure Grid where
  rows : Nat
  cols : Nat
  content : Nat → Nat → Cell
  placed_words : List PlacedWord
  next_number : Nat

/-- `Grid.__init__`: an all-white, all-empty grid. -/
def Grid.init (rows cols : Nat) : Grid :=
  { rows := rows, cols := cols,
    content := fun r c => Cell.init (Int.ofNat r) (Int.ofNat c),
    placed_words := [], next_number := 1 }

/-- `Grid.get_cell`: the cell at a position, or `none` when out of bounds. -/
def Grid.get_cell (g : Grid) (row col : Int) : Option Cell :=
  if 0 ≤ row ∧ row < (g.rows : Int) ∧ 0 ≤ col ∧ col < (g.cols : Int) then
    some (g.content row.toNat col.toNat)
  else none

/-- Replace the cell at an (in-range) pair of natural coordinates: the
embedding of one assignment to `self.cells[(row, col)]`'s fields. -/
def Grid.setCell (g : Grid) (r c : Nat) (cell : Cell) : Grid :=
  { g with content := fun r' c' => if r' = r ∧ c' = c then cell else g.content r' c' }

/-- `Grid.set_black`: blacken a cell (and clear its letter) when in bounds. -/
def Grid.set_black (g : Grid) (row col : Int) : Grid :=
  if 0 ≤ row ∧ row < (g.rows : Int) ∧ 0 ≤ col ∧ col < (g.cols : Int) then
    let cell := g.content row.toNat col.toNat
    g.setCell row.toNat col.toNat { cell with is_black := true, letter := none }
  else g

/-- `Grid.set_letter`: write an (uppercased) letter into a non-black, in-bounds
cell; otherwise do nothing. -/
def Grid.set_letter (g : Grid) (row col : Int) (letter : Char) : Grid :=
  if 0 ≤ row ∧ row < (g.rows : Int) ∧ 0 ≤ col ∧ col < (g.cols : Int) then
    let cell := g.content row.toNat col.toNat
    if cell.is_black then g
    else g.setCell row.toNat col.toNat { cell with letter := some letter.toUpper }
  else g

/-- `Grid.get_letter`: the letter at a position, `none` when absent or out of
bounds. -/
def Grid.get_letter (g : Grid) (row col : Int) : Option Char :=
  match g.get_cell row col with
  | some cell => cell.letter
  | none => none

/-- The coordinate covered by character `i` of a word placed at
`(row, col)` in direction `d` — the `r, c` computed at the top of each loop
of `can_place_word`. -/
def posAt (row col : Int) (d : Direction) (i : Nat) : Int × Int :=
  match d with
  | .ACROSS => (row, col + (i : Int))
  | .DOWN => (row + (i : Int), col)

/-- The first neighbor orthogonal to the placement direction (`above` for an
ACROSS word, `left` for a DOWN word in `can_place_word`). -/
def orthBefore (p : Int × Int) (d : Direction) : Int × Int :=
  match d with
  | .ACROSS => (p.1 - 1, p.2)
  | .DOWN => (p.1, p.2 - 1)

/-- The second neighbor orthogonal to the placement direction (`below` for an
ACROSS word, `right` for a DOWN word in `can_place_word`). -/
def orthAfter (p : Int × Int) (d : Direction) : Int × Int :=
  match d with
  | .ACROSS => (p.1 + 1, p.2)
  | .DOWN => (p.1, p.2 + 1)

/-- The cell immediately before a word's start, in its direction. -/
def beforePos (row col : Int) (d : Direction) : Int × Int :=
  match d with
  | .ACROSS => (row, col - 1)
  | .DOWN => (row - 1, col)

/-- The cell immediately after a word's end, in its direction. -/
def afterPos (row col : Int) (len : Nat) (d : Direction) : Int × Int :=
  match d with
  | .ACROSS => (row, col + (len : Int))
  | .DOWN => (row + (len : Int), col)

/-- Whether the cell at a position exists and bears a letter: the source's
recurring `x and x.letter is not None` test. -/
def Grid.cellHasLetter (g : Grid) (row col : Int) : Bool :=
  match g.get_cell row col with
  | some cell => cell.letter.isSome
  | none => false

/-- `Grid.can_place_word` from `src/grid.py`: the three phases of the source —
per-cell legality (bounds, black, letter conflict), the orthogonal-adjacency
check on non-crossing cells, and the before/after boundary check — joined by
`&&` in place of the source's early `return False`s. -/
def Grid.can_place_word (g : Grid) (word : List Char) (row col : Int) (d : Direction) : Bool :=
  let w := word.map Char.toUpper
  ((List.range w.length).all fun i =>
    let p := posAt row col d i
    match g.get_cell p.1 p.2 with
    | none => false
    | some cell =>
      !cell.is_black &&
      (match cell.letter with
       | none => true
       | some l => l = w.getD i ' ')) &&
  ((List.range w.length).all fun i =>
    let p := posAt row col d i
    match g.get_cell p.1 p.2 with
    | none => true
    | some cell =>
      if cell.letter.isNone then
        !(g.cellHasLetter (orthBefore p d).1 (orthBefore p d).2) &&
        !(g.cellHasLetter (orthAfter p d).1 (orthAfter p d).2)
      else true) &&
  (!(g.cellHasLetter (beforePos row col d).1 (beforePos row col d).2) &&
   !(g.cellHasLetter (afterPos row col w.length d).1 (afterPos row col w.length d).2))

/-- `Grid.place_word` from `src/grid.py`.  The result's outer `Option` marks
the uncaught `AttributeError` the source raises when `can_place_word`
succeeded but the start cell is out of bounds (`start_cell.number` on
`None`); the inner `Option PlacedWord` is the source's return value, `none`
being its explicit `None` failure with the grid untouched. -/
def Grid.place_word (g : Grid) (word : List Char) (clue : String) (row col : Int)
    (d : Direction) : Option (Option PlacedWord × Grid) :=
  if !(g.can_place_word word row col d) then
    some (none, g)
  else
    let w := word.map Char.toUpper
    match g.get_cell row col with
    | none => none
    | some start_cell =>
      let ng : Nat × Grid :=
        match start_cell.number with
        | some n => (n, g)
        | none =>
          (g.next_number,
           { g.setCell row.toNat col.toNat { start_cell with number := some g.next_number } with
               next_number := g.next_number + 1 })
      let g2 := (List.range w.length).foldl (fun gAcc i =>
        let p := posAt row col d i
        gAcc.set_letter p.1 p.2 (w.getD i ' ')) ng.2
      let placed : PlacedWord :=
        { word := w, clue := clue, row := row, col := col, direction := d, number := ng.1 }
      some (some placed, { g2 with placed_words := g2.placed_words ++ [placed] })

/-- The number of cells along a candidate placement that already bear a
letter: the `intersections` count of `find_intersections`. -/
def Grid.overlapCount (g : Grid) (len : Nat) (row col : Int) (d : Direction) : Nat :=
  (List.range len).countP fun j => (g.get_letter (posAt row col d j).1 (posAt row col d j).2).isSome

/-- `Grid.find_intersections` from `src/grid.py`: for every in-range cell that
bears a letter and every index of the (uppercased) word with that letter,
offer the ACROSS and DOWN starts aligning the two, keeping the ones that pass
`can_place_word`, each with its overlap count. -/
def Grid.find_intersections (g : Grid) (word : List Char) :
    List (Int × Int × Direction × Nat) :=
  let w := word.map Char.toUpper
  (List.range g.rows).flatMap fun r =>
    (List.range g.cols).flatMap fun c =>
      match g.get_cell (r : Int) (c : Int) with
      | none => []
      | some cell =>
      match cell.letter with
      | none => []
      | some L =>
        (List.range w.length).flatMap fun i =>
          if w.getD i ' ' = L then
            (let start_col : Int := (c : Int) - (i : Int)
             if g.can_place_word word (r : Int) start_col .ACROSS then
               [((r : Int), start_col, Direction.ACROSS, g.overlapCount w.length (r : Int) start_col .ACROSS)]
             else []) ++
            (let start_row : Int := (r : Int) - (i : Int)
             if g.can_place_word word start_row (c : Int) .DOWN then
               [(start_row, (c : Int), Direction.DOWN, g.overlapCount w.length start_row (c : Int) .DOWN)]
             else [])
          else []

/-- All coordinates of the grid's rectangle, row-major: the key set of the
source's `self.cells`. -/
def Grid.coordList (g : Grid) : List (Nat × Nat) :=
  (List.range g.rows).flatMap fun r => (List.range g.cols).map fun c => (r, c)

/-- The coordinates of the letter-bearing cells, the ones `get_bounds`
folds its minima and maxima over. -/
def Grid.filledCoords (g : Grid) : List (Nat × Nat) :=
  g.coordList.filter fun p => (g.content p.1 p.2).letter.isSome

/-- `Grid.get_bounds` from `src/grid.py`: the bounding box of letter-bearing
cells as `(min_row, min_col, max_row, max_col)`, with the source's start
values `rows`, `cols`, `0`, `0` and its `(0, 0, 0, 0)` fallback when
`min_row > max_row`. -/
def Grid.get_bounds (g : Grid) : Nat × Nat × Nat × Nat :=
  let min_row := g.filledCoords.foldl (fun a p => min a p.1) g.rows
  let min_col := g.filledCoords.foldl (fun a p => min a p.2) g.cols
  let max_row := g.filledCoords.foldl (fun a p => max a p.1) 0
  let max_col := g.filledCoords.foldl (fun a p => max a p.2) 0
  if max_row < min_row then (0, 0, 0, 0) else (min_row, min_col, max_row, max_col)

/-- `Grid.compact` from `src/grid.py`: a fresh grid of the bounding box's
size; every in-box cell's letter, black flag and number are copied to the
translated coordinates, and every placed word is re-recorded with its start
translated by `(-min_row, -min_col)`.

The source computes `max - min + 1` with Python ints, and when a zero-row
grid makes `get_bounds` return `min_col > max_col` it builds a `Grid` with a
negative column count, whose cell dictionary is empty; such a grid is
observationally the one with extent `0`, which is what `Int.toNat` yields
here. -/
def Grid.compact (g : Grid) : Grid :=
  let b := g.get_bounds
  let min_row := b.1
  let min_col := b.2.1
  let max_row := b.2.2.1
  let max_col := b.2.2.2
  let new_rows := ((max_row : Int) - (min_row : Int) + 1).toNat
  let new_cols := ((max_col : Int) - (min_col : Int) + 1).toNat
  { rows := new_rows, cols := new_cols,
    content := fun r c =>
      if r < new_rows ∧ c < new_cols ∧ min_row + r < g.rows ∧ min_col + c < g.cols then
        let src := g.content (min_row + r) (min_col + c)
        { row := (r : Int), col := (c : Int), letter := src.letter,
          is_black := src.is_black, number := src.number }
      else Cell.init (r : Int) (c : Int),
    placed_words := g.placed_words.map fun pw =>
      { pw with row := pw.row - (min_row : Int), col := pw.col - (min_col : Int) },
    next_number := g.next_number }

/-- `Grid.get_across_words` from `src/grid.py`: the ACROSS words sorted by
number (a stable merge sort, as Python's `sorted`). -/
def Grid.get_across_words (g : Grid) : List PlacedWord :=
  (g.placed_words.filter fun w => w.direction = Direction.ACROSS).mergeSort
    fun a b => a.number ≤ b.number

/-- `Grid.get_down_words` from `src/grid.py`: the DOWN words sorted by number. -/
def Grid.get_down_words (g : Grid) : List PlacedWord :=
  (g.placed_words.filter fun w => w.direction = Direction.DOWN).mergeSort
    fun a b => a.number ≤ b.number

/-! ## Claim C1: the meaning of `can_place_word`

`CanPlaceSpec` restates the claim's three conditions as a proposition, to be
proved equivalent to the boolean `can_place_word` computes. -/

/-- The claim's reading of `canPlace`: every covered cell is in bounds, not
black, and empty or already holding the word's (uppercased) corresponding
character; every currently letter-free covered cell has no letter-bearing
neighbor orthogonal to the placement direction; and the cells immediately
before the start and after the end are out of bounds or letter-free. -/
def CanPlaceSpec (g : Grid) (word : List Char) (row col : Int) (d : Direction) : Prop :=
  (∀ i < (word.map Char.toUpper).length, ∃ cell,
      g.get_cell (posAt row col d i).1 (posAt row col d i).2 = some cell ∧
      cell.is_black = false ∧
      (cell.letter = none ∨ cell.letter = some ((word.map Char.toUpper).getD i ' '))) ∧
  (∀ i < (word.map Char.toUpper).length, ∀ cell,
      g.get_cell (posAt row col d i).1 (posAt row col d i).2 = some cell →
      cell.letter = none →
      g.cellHasLetter (orthBefore (posAt row col d i) d).1
          (orthBefore (posAt row col d i) d).2 = false ∧
      g.cellHasLetter (orthAfter (posAt row col d i) d).1
          (orthAfter (posAt row col d i) d).2 = false) ∧
  g.cellHasLetter (beforePos row col d).1 (beforePos row col d).2 = false ∧
  g.cellHasLetter (afterPos row col (word.map Char.toUpper).length d).1
      (afterPos row col (word.map Char.toUpper).length d).2 = false

/-- The per-cell legality test of `can_place_word`'s first loop, as a
proposition about the optional cell found there. -/
theorem phase1_elem (o : Option Cell) (ch : Char) :
    (match o with
     | none => false
     | some cell =>
       !cell.is_black &&
       (match cell.letter with
        | none => true
        | some l => l = ch)) = true
    ↔ ∃ cell, o = some cell ∧ cell.is_black = false ∧
        (cell.letter = none ∨ cell.letter = some ch) := by
  cases o with
  | none => simp
  | some cell =>
    cases h : cell.letter with
    | none => simp [h]
    | some l => simp [h]

/-- The adjacency test of `can_place_word`'s second loop, as a proposition. -/
theorem phase2_elem (o : Option Cell) (a b : Bool) :
    (match o with
     | none => true
     | some cell => if cell.letter.isNone then !a && !b else true) = true
    ↔ ∀ cell, o = some cell → cell.letter = none → a = false ∧ b = false := by
  cases o with
  | none => simp
  | some cell =>
    cases h : cell.letter with
    | none => simp [h, Option.isNone]
    | some l => simp [h, Option.isNone]

/-- `can_place_word` agrees with its specification predicate. -/
theorem can_place_word_iff_spec (g : Grid) (word : List Char) (row col : Int)
    (d : Direction) :
    g.can_place_word word row col d = true ↔ CanPlaceSpec g word row col d := by
  unfold Grid.can_place_word CanPlaceSpec
  simp only [Bool.and_eq_true, List.all_eq_true, List.mem_range, Bool.not_eq_true',
    Bool.not_eq_true, and_assoc]
  refine and_congr ?_ (and_congr ?_ (and_congr Iff.rfl Iff.rfl))
  · exact forall₂_congr fun i hi => phase1_elem _ _
  · exact forall₂_congr fun i hi => phase2_elem _ _ _

/-- C1 (confirmed). `can_place_word` returns `true` exactly when the claim's
three conditions hold: covered cells in bounds, non-black and
letter-compatible; no letter-free covered cell with a letter-bearing
orthogonal neighbor; and letter-free (or out-of-bounds) cells just before
and just after the word. -/
theorem C1_can_place_word_iff_spec (g : Grid) (word : List Char) (row col : Int)
    (d : Direction) :
    g.can_place_word word row col d = true ↔ CanPlaceSpec g word row col d :=
  can_place_word_iff_spec g word row col d

/-! ## Folded minima and maxima, for `get_bounds` -/

theorem foldl_min_le_init (l : List Nat) (a : Nat) : l.foldl min a ≤ a := by
  induction l generalizing a with
  | nil => simp
  | cons x xs ih => exact le_trans (ih _) (min_le_left _ _)

theorem foldl_min_le_mem {l : List Nat} {x : Nat} (hx : x ∈ l) (a : Nat) :
    l.foldl min a ≤ x := by
  induction l generalizing a with
  | nil => cases hx
  | cons y ys ih =>
    rcases List.mem_cons.mp hx with h | h
    · subst h
      calc List.foldl min a (x :: ys) = List.foldl min (min a x) ys := by simp
        _ ≤ min a x := foldl_min_le_init _ _
        _ ≤ x := min_le_right _ _
    · exact ih h _

theorem foldl_min_cases (l : List Nat) (a : Nat) :
    l.foldl min a = a ∨ l.foldl min a ∈ l := by
  induction l generalizing a with
  | nil => exact Or.inl rfl
  | cons y ys ih =>
    rcases ih (min a y) with h | h
    · rcases min_choice a y with hm | hm
      · exact Or.inl (by simpa [hm] using h)
      · rw [hm] at h
        exact Or.inr (by simp [List.foldl_cons, hm, h, List.mem_cons])
    · exact Or.inr (List.mem_cons_of_mem _ h)

theorem init_le_foldl_max (l : List Nat) (a : Nat) : a ≤ l.foldl max a := by
  induction l generalizing a with
  | nil => simp
  | cons x xs ih => exact le_trans (le_max_left _ _) (ih _)

theorem mem_le_foldl_max {l : List Nat} {x : Nat} (hx : x ∈ l) (a : Nat) :
    x ≤ l.foldl max a := by
  induction l generalizing a with
  | nil => cases hx
  | cons y ys ih =>
    rcases List.mem_cons.mp hx with h | h
    · subst h
      exact le_trans (le_max_right _ _) (init_le_foldl_max _ _)
    · exact ih h _

theorem foldl_max_cases (l : List Nat) (a : Nat) :
    l.foldl max a = a ∨ l.foldl max a ∈ l := by
  induction l generalizing a with
  | nil => exact Or.inl rfl
  | cons y ys ih =>
    rcases ih (max a y) with h | h
    · rcases max_choice a y with hm | hm
      · exact Or.inl (by simpa [hm] using h)
      · rw [hm] at h
        exact Or.inr (by simp [List.foldl_cons, hm, h, List.mem_cons])
    · exact Or.inr (List.mem_cons_of_mem _ h)

/-! ## The bounding box -/

theorem mem_coordList (g : Grid) (p : Nat × Nat) :
    p ∈ g.coordList ↔ p.1 < g.rows ∧ p.2 < g.cols := by
  obtain ⟨r, c⟩ := p
  simp only [Grid.coordList, List.mem_flatMap, List.mem_map, List.mem_range, Prod.mk.injEq]
  constructor
  · rintro ⟨r', hr', c', hc', rfl, rfl⟩
    exact ⟨hr', hc'⟩
  · rintro ⟨hr, hc⟩
    exact ⟨r, hr, c, hc, rfl, rfl⟩

theorem mem_filledCoords (g : Grid) (p : Nat × Nat) :
    p ∈ g.filledCoords ↔
      p.1 < g.rows ∧ p.2 < g.cols ∧ (g.content p.1 p.2).letter.isSome = true := by
  simp [Grid.filledCoords, List.mem_filter, mem_coordList, and_assoc]

/-- The four components of `get_bounds`, before the fallback test. -/
theorem get_bounds_def (g : Grid) :
    g.get_bounds =
      (if (g.filledCoords.map Prod.fst).foldl max 0 <
          (g.filledCoords.map Prod.fst).foldl min g.rows then (0, 0, 0, 0)
       else ((g.filledCoords.map Prod.fst).foldl min g.rows,
             (g.filledCoords.map Prod.snd).foldl min g.cols,
             (g.filledCoords.map Prod.fst).foldl max 0,
             (g.filledCoords.map Prod.snd).foldl max 0)) := by
  simp [Grid.get_bounds, List.foldl_map]

/-- `min_row ≤ max_row` holds of every `get_bounds` result. -/
theorem get_bounds_row_le (g : Grid) : g.get_bounds.1 ≤ g.get_bounds.2.2.1 := by
  rw [get_bounds_def]
  split
  · exact le_refl 0
  · dsimp only
    omega

theorem compact_rows (g : Grid) :
    g.compact.rows = ((g.get_bounds.2.2.1 : Int) - (g.get_bounds.1 : Int) + 1).toNat := rfl

theorem compact_cols (g : Grid) :
    g.compact.cols = ((g.get_bounds.2.2.2 : Int) - (g.get_bounds.2.1 : Int) + 1).toNat := rfl

/-! ## Claim C10 (corrected): `get_bounds` and `compact` on letterless grids -/

/-- C10's counterexample: the 0-row, 1-column grid bears no letter, yet
`get_bounds` is `(0, 1, 0, 0)` — not `(0, 0, 0, 0)` — and `compact` yields a
1-row, **0**-column grid (the source even builds it with extent
`0 - 1 + 1 = 0`), not a 1x1 grid. -/
theorem C10_counterexample :
    (∀ r c, r < (Grid.init 0 1).rows → c < (Grid.init 0 1).cols →
        ((Grid.init 0 1).content r c).letter = none) ∧
    (Grid.init 0 1).get_bounds = (0, 1, 0, 0) ∧
    (Grid.init 0 1).compact.cols = 0 := by
  refine ⟨fun r c hr hc => absurd hr (by simp [Grid.init]), by decide, by decide⟩

/-- C10 (corrected): when the grid has at least one row (or is 0x0), a
letterless grid's bounds are `(0, 0, 0, 0)` and its compaction is 1x1; and
for every grid whatsoever the compaction has at least one row, so `compact`
never yields a 0x0 grid. -/
theorem C10_bounds_of_letterless (g : Grid) :
    ((∀ r c, r < g.rows → c < g.cols → (g.content r c).letter = none) →
      1 ≤ g.rows ∨ g.cols = 0 →
      g.get_bounds = (0, 0, 0, 0) ∧ g.compact.rows = 1 ∧ g.compact.cols = 1) ∧
    1 ≤ g.compact.rows := by
  constructor
  · intro hempty hshape
    have hfc : g.filledCoords = [] := by
      rw [List.eq_nil_iff_forall_not_mem]
      intro p hp
      rw [mem_filledCoords] at hp
      rw [hempty p.1 p.2 hp.1 hp.2.1] at hp
      simp at hp
    have hb : g.get_bounds = (0, 0, 0, 0) := by
      rw [get_bounds_def, hfc]
      simp only [List.map_nil, List.foldl_nil]
      split
      · rfl
      · rename_i hlt
        have h0 : g.rows = 0 := by omega
        rcases hshape with h | h
        · exact absurd h (by omega)
        · simp [h, h0]
    refine ⟨hb, ?_, ?_⟩ <;> simp [compact_rows, compact_cols, hb]
  · have := get_bounds_row_le g
    rw [compact_rows]
    omega

/-! ## Characters: uppercasing is idempotent -/

theorem char_toNat_ofNat_small (m : Nat) (h : m < 55296) : (Char.ofNat m).toNat = m := by
  have hv : m.isValidChar := Or.inl h
  rw [Char.ofNat, dif_pos hv]
  rfl

theorem char_toUpper_of_lower (c : Char) (h : 97 ≤ c.toNat ∧ c.toNat ≤ 122) :
    c.toUpper = Char.ofNat (c.toNat - 32) := by
  rw [Char.toUpper, if_pos h]

theorem char_toUpper_of_not_lower (c : Char) (h : ¬(97 ≤ c.toNat ∧ c.toNat ≤ 122)) :
    c.toUpper = c := by
  rw [Char.toUpper, if_neg h]

theorem char_toUpper_idem (c : Char) : c.toUpper.toUpper = c.toUpper := by
  by_cases h : 97 ≤ c.toNat ∧ c.toNat ≤ 122
  · rw [char_toUpper_of_lower c h]
    refine char_toUpper_of_not_lower _ ?_
    rw [char_toNat_ofNat_small _ (by omega)]
    omega
  · rw [char_toUpper_of_not_lower c h]
    exact char_toUpper_of_not_lower c h

/-! ## Frame lemmas for cell access and updates -/

theorem get_cell_of_range (g : Grid) (row col : Int)
    (h : 0 ≤ row ∧ row < (g.rows : Int) ∧ 0 ≤ col ∧ col < (g.cols : Int)) :
    g.get_cell row col = some (g.content row.toNat col.toNat) := by
  rw [Grid.get_cell, if_pos h]

theorem get_cell_some_range {g : Grid} {row col : Int} {cell : Cell}
    (h : g.get_cell row col = some cell) :
    (0 ≤ row ∧ row < (g.rows : Int) ∧ 0 ≤ col ∧ col < (g.cols : Int)) ∧
      g.content row.toNat col.toNat = cell := by
  rw [Grid.get_cell] at h
  split at h
  · rename_i hc
    exact ⟨hc, by injection h⟩
  · cases h

theorem setCell_content (g : Grid) (r c : Nat) (cell : Cell) (r' c' : Nat) :
    (g.setCell r c cell).content r' c' = if r' = r ∧ c' = c then cell else g.content r' c' :=
  rfl

theorem set_letter_rows (g : Grid) (row col : Int) (ch : Char) :
    (g.set_letter row col ch).rows = g.rows := by
  simp only [Grid.set_letter]
  split
  · split <;> rfl
  · rfl

theorem set_letter_cols (g : Grid) (row col : Int) (ch : Char) :
    (g.set_letter row col ch).cols = g.cols := by
  simp only [Grid.set_letter]
  split
  · split <;> rfl
  · rfl

theorem set_letter_placed_words (g : Grid) (row col : Int) (ch : Char) :
    (g.set_letter row col ch).placed_words = g.placed_words := by
  simp only [Grid.set_letter]
  split
  · split <;> rfl
  · rfl

theorem set_letter_next_number (g : Grid) (row col : Int) (ch : Char) :
    (g.set_letter row col ch).next_number = g.next_number := by
  simp only [Grid.set_letter]
  split
  · split <;> rfl
  · rfl

theorem set_letter_content_number (g : Grid) (row col : Int) (ch : Char) (r' c' : Nat) :
    ((g.set_letter row col ch).content r' c').number = (g.content r' c').number := by
  simp only [Grid.set_letter]
  split
  · split
    · rfl
    · rw [setCell_content]
      split
      · rename_i heq
        rw [heq.1, heq.2]
      · rfl
  · rfl

theorem set_letter_content_is_black (g : Grid) (row col : Int) (ch : Char) (r' c' : Nat) :
    ((g.set_letter row col ch).content r' c').is_black = (g.content r' c').is_black := by
  simp only [Grid.set_letter]
  split
  · split
    · rfl
    · rw [setCell_content]
      split
      · rename_i heq
        rw [heq.1, heq.2]
      · rfl
  · rfl

theorem set_letter_content_ne (g : Grid) (row col : Int) (ch : Char) (r' c' : Nat)
    (h : ¬(r' = row.toNat ∧ c' = col.toNat)) :
    (g.set_letter row col ch).content r' c' = g.content r' c' := by
  simp only [Grid.set_letter]
  split
  · split
    · rfl
    · rw [setCell_content, if_neg h]
  · rfl

theorem set_letter_content_self (g : Grid) (row col : Int) (ch : Char)
    (hin : 0 ≤ row ∧ row < (g.rows : Int) ∧ 0 ≤ col ∧ col < (g.cols : Int))
    (hb : (g.content row.toNat col.toNat).is_black = false) :
    (g.set_letter row col ch).content row.toNat col.toNat =
      { g.content row.toNat col.toNat with letter := some ch.toUpper } := by
  simp only [Grid.set_letter]
  rw [if_pos hin, if_neg (by rw [hb]; exact Bool.false_ne_true), setCell_content,
    if_pos ⟨rfl, rfl⟩]

theorem posAt_inj (row col : Int) (d : Direction) {i j : Nat}
    (h : posAt row col d i = posAt row col d j) : i = j := by
  cases d <;> simp [posAt, Prod.ext_iff] at h <;> omega

/-! The letter-writing loop of `place_word`, and facts preserved by it. -/

theorem foldl_set_letter_rows (l : List Nat) (g : Grid) (row col : Int) (d : Direction)
    (f : Nat → Char) :
    ((l.foldl (fun gA j => gA.set_letter (posAt row col d j).1 (posAt row col d j).2 (f j)) g)).rows
      = g.rows := by
  induction l generalizing g with
  | nil => rfl
  | cons x xs ih => rw [List.foldl_cons, ih, set_letter_rows]

theorem foldl_set_letter_cols (l : List Nat) (g : Grid) (row col : Int) (d : Direction)
    (f : Nat → Char) :
    ((l.foldl (fun gA j => gA.set_letter (posAt row col d j).1 (posAt row col d j).2 (f j)) g)).cols
      = g.cols := by
  induction l generalizing g with
  | nil => rfl
  | cons x xs ih => rw [List.foldl_cons, ih, set_letter_cols]

theorem foldl_set_letter_placed_words (l : List Nat) (g : Grid) (row col : Int) (d : Direction)
    (f : Nat → Char) :
    ((l.foldl (fun gA j => gA.set_letter (posAt row col d j).1 (posAt row col d j).2 (f j)) g)).placed_words
      = g.placed_words := by
  induction l generalizing g with
  | nil => rfl
  | cons x xs ih => rw [List.foldl_cons, ih, set_letter_placed_words]

theorem foldl_set_letter_next_number (l : List Nat) (g : Grid) (row col : Int) (d : Direction)
    (f : Nat → Char) :
    ((l.foldl (fun gA j => gA.set_letter (posAt row col d j).1 (posAt row col d j).2 (f j)) g)).next_number
      = g.next_number := by
  induction l generalizing g with
  | nil => rfl
  | cons x xs ih => rw [List.foldl_cons, ih, set_letter_next_number]

theorem foldl_set_letter_content_number (l : List Nat) (g : Grid) (row col : Int) (d : Direction)
    (f : Nat → Char) (r' c' : Nat) :
    (((l.foldl (fun gA j => gA.set_letter (posAt row col d j).1 (posAt row col d j).2 (f j)) g)).content r' c').number
      = (g.content r' c').number := by
  induction l generalizing g with
  | nil => rfl
  | cons x xs ih => rw [List.foldl_cons, ih, set_letter_content_number]

theorem foldl_set_letter_content_is_black (l : List Nat) (g : Grid) (row col : Int) (d : Direction)
    (f : Nat → Char) (r' c' : Nat) :
    (((l.foldl (fun gA j => gA.set_letter (posAt row col d j).1 (posAt row col d j).2 (f j)) g)).content r' c').is_black
      = (g.content r' c').is_black := by
  induction l generalizing g with
  | nil => rfl
  | cons x xs ih => rw [List.foldl_cons, ih, set_letter_content_is_black]

/-- After the whole letter-writing loop, every covered cell holds its letter. -/
theorem foldl_set_letter_content_letter (g : Grid) (row col : Int) (d : Direction)
    (f : Nat → Char) (n : Nat)
    (hcond : ∀ j, j < n →
      (0 ≤ (posAt row col d j).1 ∧ (posAt row col d j).1 < (g.rows : Int) ∧
       0 ≤ (posAt row col d j).2 ∧ (posAt row col d j).2 < (g.cols : Int)) ∧
      (g.content (posAt row col d j).1.toNat (posAt row col d j).2.toNat).is_black = false) :
    ∀ i, i < n →
      (((List.range n).foldl
          (fun gA j => gA.set_letter (posAt row col d j).1 (posAt row col d j).2 (f j)) g).content
        (posAt row col d i).1.toNat (posAt row col d i).2.toNat).letter = some (f i).toUpper := by
  induction n with
  | zero => intro i hi; omega
  | succ n ih =>
    intro i hi
    rw [List.range_succ, List.foldl_append, List.foldl_cons, List.foldl_nil]
    by_cases hin : i = n
    · subst hin
      have hr := foldl_set_letter_rows (List.range i) g row col d f
      have hc := foldl_set_letter_cols (List.range i) g row col d f
      have hb := foldl_set_letter_content_is_black (List.range i) g row col d f
        (posAt row col d i).1.toNat (posAt row col d i).2.toNat
      rw [set_letter_content_self _ _ _ _ (by rw [hr, hc]; exact (hcond i (by omega)).1)
        (by rw [hb]; exact (hcond i (by omega)).2)]
    · have hi' : i < n := by omega
      have hne : ¬((posAt row col d i).1.toNat = (posAt row col d n).1.toNat ∧
          (posAt row col d i).2.toNat = (posAt row col d n).2.toNat) := by
        rintro ⟨h1, h2⟩
        have hnni := (hcond i (by omega)).1
        have hnnn := (hcond n (by omega)).1
        apply hin
        refine posAt_inj row col d (Prod.ext ?_ ?_)
        · omega
        · omega
      rw [set_letter_content_ne _ _ _ _ _ _ hne]
      exact ih (fun j hj => hcond j (by omega)) i hi'

/-! ## Claim C2: the contract of `place_word` -/

theorem posAt_zero (row col : Int) (d : Direction) : posAt row col d 0 = (row, col) := by
  cases d <;> simp [posAt]

theorem getD_map_toUpper (word : List Char) (i : Nat) (h : i < word.length) :
    ((word.map Char.toUpper).getD i ' ').toUpper = (word.map Char.toUpper).getD i ' ' := by
  rw [List.getD_eq_getElem _ _ (by simpa using h), List.getElem_map]
  exact char_toUpper_idem _

/-- Success behavior of `place_word`: when the word is nonempty and
`can_place_word` holds, placement returns a record and the updated grid,
characterised field by field. -/
theorem place_word_success (g : Grid) (word : List Char) (clue : String) (row col : Int)
    (d : Direction) (hw : word ≠ []) (hcan : g.can_place_word word row col d = true) :
    ∃ pw g', g.place_word word clue row col d = some (some pw, g') ∧
      pw.word = word.map Char.toUpper ∧ pw.clue = clue ∧ pw.row = row ∧ pw.col = col ∧
      pw.direction = d ∧
      g'.rows = g.rows ∧ g'.cols = g.cols ∧
      g'.placed_words = g.placed_words ++ [pw] ∧
      (∀ i, i < word.length →
        g'.get_letter (posAt row col d i).1 (posAt row col d i).2 =
          some ((word.map Char.toUpper).getD i ' ')) ∧
      (∃ cell, g.get_cell row col = some cell ∧
        ((∃ n, cell.number = some n ∧ pw.number = n ∧ g'.next_number = g.next_number) ∨
         (cell.number = none ∧ pw.number = g.next_number ∧
           g'.next_number = g.next_number + 1))) ∧
      (∃ cell', g'.get_cell row col = some cell' ∧ cell'.number = some pw.number) := by
  obtain ⟨h1, h2, h3, h4⟩ := (can_place_word_iff_spec g word row col d).mp hcan
  have hlen : (word.map Char.toUpper).length = word.length := List.length_map _ _
  have h0 : 0 < (word.map Char.toUpper).length := by
    rw [hlen]
    exact List.length_pos.mpr hw
  obtain ⟨cell0, hc0, hb0, _⟩ := h1 0 h0
  simp only [posAt_zero] at hc0
  obtain ⟨hrange0, hcontent0⟩ := get_cell_some_range hc0
  have hcond0 : ∀ j, j < (word.map Char.toUpper).length →
      (0 ≤ (posAt row col d j).1 ∧ (posAt row col d j).1 < (g.rows : Int) ∧
       0 ≤ (posAt row col d j).2 ∧ (posAt row col d j).2 < (g.cols : Int)) ∧
      (g.content (posAt row col d j).1.toNat (posAt row col d j).2.toNat).is_black = false := by
    intro j hj
    obtain ⟨cj, hcj, hbj, _⟩ := h1 j hj
    obtain ⟨hrj, hctj⟩ := get_cell_some_range hcj
    exact ⟨hrj, by rw [hctj]; exact hbj⟩
  unfold Grid.place_word
  rw [hcan]
  simp only [Bool.not_true, Bool.false_eq_true, if_false]
  rw [hc0]
  rcases hnum : cell0.number with _ | n
  all_goals simp only [hnum]
  -- stamped-number branch (cell0.number = none)
  · refine ⟨_, _, rfl, rfl, rfl, rfl, rfl, rfl, ?_, ?_, ?_, ?_, ?_, ?_⟩
    · rw [foldl_set_letter_rows]
      rfl
    · rw [foldl_set_letter_cols]
      rfl
    · rw [foldl_set_letter_placed_words]
      rfl
    · intro i hi
      have hi' : i < (word.map Char.toUpper).length := by omega
      have hcondb : ∀ j, j < (word.map Char.toUpper).length →
          (0 ≤ (posAt row col d j).1 ∧
           (posAt row col d j).1 < ((({ g.setCell row.toNat col.toNat
               { cell0 with number := some g.next_number } with
               next_number := g.next_number + 1 } : Grid)).rows : Int) ∧
           0 ≤ (posAt row col d j).2 ∧
           (posAt row col d j).2 < ((({ g.setCell row.toNat col.toNat
               { cell0 with number := some g.next_number } with
               next_number := g.next_number + 1 } : Grid)).cols : Int)) ∧
          ((({ g.setCell row.toNat col.toNat
               { cell0 with number := some g.next_number } with
               next_number := g.next_number + 1 } : Grid)).content
            (posAt row col d j).1.toNat (posAt row col d j).2.toNat).is_black = false := by
        intro j hj
        refine ⟨(hcond0 j hj).1, ?_⟩
        show ((g.setCell _ _ _).content _ _).is_black = false
        rw [setCell_content]
        split
        · rename_i heq
          exact hb0
        · exact (hcond0 j hj).2
      have hlet := foldl_set_letter_content_letter _ row col d
        (fun j => (word.map Char.toUpper).getD j ' ') (word.map Char.toUpper).length
        hcondb i hi'
      rw [Grid.get_letter, get_cell_of_range _ _ _
        (by rw [foldl_set_letter_rows, foldl_set_letter_cols]
            exact (hcond0 i hi').1)]
      exact hlet.trans (congrArg some (getD_map_toUpper word i hi))
    · exact ⟨cell0, rfl, Or.inr ⟨hnum, rfl, by rw [foldl_set_letter_next_number]⟩⟩
    · refine ⟨_, get_cell_of_range _ _ _ ?_, ?_⟩
      · rw [foldl_set_letter_rows, foldl_set_letter_cols]
        exact hrange0
      · rw [foldl_set_letter_content_number]
        show ((g.setCell _ _ _).content _ _).number = _
        rw [setCell_content, if_pos ⟨rfl, rfl⟩]
  -- reused-number branch (cell0.number = some n)
  · refine ⟨_, _, rfl, rfl, rfl, rfl, rfl, rfl, ?_, ?_, ?_, ?_, ?_, ?_⟩
    · exact foldl_set_letter_rows _ _ _ _ _ _
    · exact foldl_set_letter_cols _ _ _ _ _ _
    · rw [foldl_set_letter_placed_words]
    · intro i hi
      have hi' : i < (word.map Char.toUpper).length := by omega
      have hlet := foldl_set_letter_content_letter g row col d
        (fun j => (word.map Char.toUpper).getD j ' ') (word.map Char.toUpper).length
        hcond0 i hi'
      rw [Grid.get_letter, get_cell_of_range _ _ _
        (by rw [foldl_set_letter_rows, foldl_set_letter_cols]
            exact (hcond0 i hi').1)]
      exact hlet.trans (congrArg some (getD_map_toUpper word i hi))
    · exact ⟨cell0, rfl, Or.inl ⟨n, hnum, rfl, by rw [foldl_set_letter_next_number]⟩⟩
    · refine ⟨_, get_cell_of_range _ _ _ ?_, ?_⟩
      · rw [foldl_set_letter_rows, foldl_set_letter_cols]
        exact hrange0
      · rw [foldl_set_letter_content_number, hcontent0, hnum]

/-- C2's counterexample: for the empty word at an out-of-bounds start,
`can_place_word` is `true` (no covered cell, no adjacent letter), yet
`place_word` raises an uncaught `AttributeError` in the source
(`start_cell.number` with `start_cell = None`), modelled as the outer
`none`: it neither returns the `None` failure marker (with the grid
unchanged) nor appends and returns a `PlacedWord`, contradicting the claim's
success branch. -/
theorem C2_counterexample :
    (Grid.init 1 1).can_place_word [] (-1) (-1) Direction.ACROSS = true ∧
    (Grid.init 1 1).place_word [] "" (-1) (-1) Direction.ACROSS = none := ⟨rfl, rfl⟩

/-- C2 (corrected): when `can_place_word` is false, `place_word` returns the
failure marker `None` with the grid unchanged; when it is true **and the
word is nonempty** (so the start cell is in bounds — the source raises
`AttributeError` for an empty word at an out-of-bounds start), it writes
each character of the uppercased word into the covered cells, reuses the
start cell's number or allocates and stamps the next integer, appends
exactly one `PlacedWord`, and returns it. -/
theorem C2_place_word_contract (g : Grid) (word : List Char) (clue : String)
    (row col : Int) (d : Direction) :
    (g.can_place_word word row col d = false →
      g.place_word word clue row col d = some (none, g)) ∧
    (word ≠ [] → g.can_place_word word row col d = true →
      ∃ pw g', g.place_word word clue row col d = some (some pw, g') ∧
        pw.word = word.map Char.toUpper ∧ pw.clue = clue ∧ pw.row = row ∧ pw.col = col ∧
        pw.direction = d ∧
        g'.rows = g.rows ∧ g'.cols = g.cols ∧
        g'.placed_words = g.placed_words ++ [pw] ∧
        (∀ i, i < word.length →
          g'.get_letter (posAt row col d i).1 (posAt row col d i).2 =
            some ((word.map Char.toUpper).getD i ' ')) ∧
        (∃ cell, g.get_cell row col = some cell ∧
          ((∃ n, cell.number = some n ∧ pw.number = n ∧ g'.next_number = g.next_number) ∨
           (cell.number = none ∧ pw.number = g.next_number ∧
             g'.next_number = g.next_number + 1))) ∧
        (∃ cell', g'.get_cell row col = some cell' ∧ cell'.number = some pw.number)) := by
  constructor
  · intro h
    unfold Grid.place_word
    rw [h]
    rfl
  · intro hw hcan
    exact place_word_success g word clue row col d hw hcan

/-! ## Claim C9: `can_place_word` and `find_intersections` have no side effects

`can_place_word` and `find_intersections` are re-translated here statement by
statement in an explicit state-passing style: every cell access goes through a
reader returning the grid it leaves behind, and each step continues with the
grid returned by the previous one.  "No side effects" is then the provable
statement that running either function returns the grid it was given, and the
run lemmas below additionally show the returned values are exactly the ones
the direct (pure) embeddings compute. -/

def getCellSt (g : Grid) (row col : Int) : Option Cell × Grid :=
  (g.get_cell row col, g)

def getLetterSt (g : Grid) (row col : Int) : Option Char × Grid :=
  let (cell?, g) := getCellSt g row col
  match cell? with
  | some cell => (cell.letter, g)
  | none => (none, g)

def cellHasLetterSt (g : Grid) (row col : Int) : Bool × Grid :=
  let (cell?, g) := getCellSt g row col
  match cell? with
  | some cell => (cell.letter.isSome, g)
  | none => (false, g)

/-- The first loop of `can_place_word` (bounds, black, letter conflict), with
its early `return False`s. -/
def canPlaceCellsSt (w : List Char) (row col : Int) (d : Direction) :
    List Nat → Grid → Bool × Grid
  | [], g => (true, g)
  | i :: rest, g =>
    let p := posAt row col d i
    let (cell?, g) := getCellSt g p.1 p.2
    match cell? with
    | none => (false, g)
    | some cell =>
      if cell.is_black then (false, g)
      else
        match cell.letter with
        | some l =>
          if l = w.getD i ' ' then canPlaceCellsSt w row col d rest g else (false, g)
        | none => canPlaceCellsSt w row col d rest g

/-- The second loop of `can_place_word` (orthogonal adjacency of non-crossing
cells). -/
def canPlaceAdjSt (row col : Int) (d : Direction) : List Nat → Grid → Bool × Grid
  | [], g => (true, g)
  | i :: rest, g =>
    let p := posAt row col d i
    let (hb, g) := cellHasLetterSt g (orthBefore p d).1 (orthBefore p d).2
    let (ha, g) := cellHasLetterSt g (orthAfter p d).1 (orthAfter p d).2
    let (current, g) := getCellSt g p.1 p.2
    match current with
    | some cell =>
      if cell.letter.isNone then
        if hb then (false, g)
        else if ha then (false, g)
        else canPlaceAdjSt row col d rest g
      else canPlaceAdjSt row col d rest g
    | none => canPlaceAdjSt row col d rest g

/-- `can_place_word`, state-passing. -/
def Grid.can_place_wordSt (g : Grid) (word : List Char) (row col : Int) (d : Direction) :
    Bool × Grid :=
  let w := word.map Char.toUpper
  let (ok1, g) := canPlaceCellsSt w row col d (List.range w.length) g
  if !ok1 then (false, g)
  else
    let (ok2, g) := canPlaceAdjSt row col d (List.range w.length) g
    if !ok2 then (false, g)
    else
      let (hb, g) := cellHasLetterSt g (beforePos row col d).1 (beforePos row col d).2
      if hb then (false, g)
      else
        let (ha, g) :=
          cellHasLetterSt g (afterPos row col w.length d).1 (afterPos row col w.length d).2
        if ha then (false, g)
        else (true, g)

/-- The `intersections` sum of `find_intersections`, state-passing. -/
def countLettersSt (row col : Int) (d : Direction) : List Nat → Nat → Grid → Nat × Grid
  | [], acc, g => (acc, g)
  | j :: rest, acc, g =>
    let (l, g) := getLetterSt g (posAt row col d j).1 (posAt row col d j).2
    countLettersSt row col d rest (if l.isSome then acc + 1 else acc) g

/-- The inner loop of `find_intersections` over the word's indices, for one
letter-bearing cell `(r, c)` holding `L`. -/
def fiInnerSt (word : List Char) (r c : Nat) (L : Char) :
    List Nat → List (Int × Int × Direction × Nat) → Grid →
    List (Int × Int × Direction × Nat) × Grid
  | [], acc, g => (acc, g)
  | i :: rest, acc, g =>
    let w := word.map Char.toUpper
    if w.getD i ' ' = L then
      let start_col : Int := (c : Int) - (i : Int)
      let (okA, g) := g.can_place_wordSt word (r : Int) start_col .ACROSS
      let (acc, g) :=
        if okA then
          let (cnt, g) := countLettersSt (r : Int) start_col .ACROSS (List.range w.length) 0 g
          (acc ++ [((r : Int), start_col, Direction.ACROSS, cnt)], g)
        else (acc, g)
      let start_row : Int := (r : Int) - (i : Int)
      let (okD, g) := g.can_place_wordSt word start_row (c : Int) .DOWN
      let (acc, g) :=
        if okD then
          let (cnt, g) := countLettersSt start_row (c : Int) .DOWN (List.range w.length) 0 g
          (acc ++ [(start_row, (c : Int), Direction.DOWN, cnt)], g)
        else (acc, g)
      fiInnerSt word r c L rest acc g
    else fiInnerSt word r c L rest acc g

/-- The outer loops of `find_intersections` over the grid's coordinates. -/
def fiCellsSt (word : List Char) :
    List (Nat × Nat) → List (Int × Int × Direction × Nat) → Grid →
    List (Int × Int × Direction × Nat) × Grid
  | [], acc, g => (acc, g)
  | rc :: rest, acc, g =>
    let (cell?, g) := getCellSt g (rc.1 : Int) (rc.2 : Int)
    match cell? with
    | none => fiCellsSt word rest acc g
    | some cell =>
      match cell.letter with
      | none => fiCellsSt word rest acc g
      | some L =>
        let w := word.map Char.toUpper
        let (acc, g) := fiInnerSt word rc.1 rc.2 L (List.range w.length) acc g
        fiCellsSt word rest acc g

/-- `find_intersections`, state-passing. -/
def Grid.find_intersectionsSt (g : Grid) (word : List Char) :
    List (Int × Int × Direction × Nat) × Grid :=
  fiCellsSt word g.coordList [] g

theorem getLetterSt_run (g : Grid) (row col : Int) :
    getLetterSt g row col = (g.get_letter row col, g) := by
  unfold getLetterSt getCellSt Grid.get_letter
  cases h : g.get_cell row col <;> simp [h]

theorem cellHasLetterSt_run (g : Grid) (row col : Int) :
    cellHasLetterSt g row col = (g.cellHasLetter row col, g) := by
  unfold cellHasLetterSt getCellSt Grid.cellHasLetter
  cases h : g.get_cell row col <;> simp [h]

theorem canPlaceCellsSt_run (w : List Char) (row col : Int) (d : Direction) :
    ∀ (l : List Nat) (g : Grid),
      canPlaceCellsSt w row col d l g =
        ((l.all fun i =>
          match g.get_cell (posAt row col d i).1 (posAt row col d i).2 with
          | none => false
          | some cell =>
            !cell.is_black &&
            (match cell.letter with
             | none => true
             | some le => le = w.getD i ' ')), g) := by
  intro l
  induction l with
  | nil => intro g; rfl
  | cons i rest ih =>
    intro g
    rw [canPlaceCellsSt]
    dsimp only [getCellSt]
    rcases h : g.get_cell (posAt row col d i).1 (posAt row col d i).2 with _ | cell
    · simp [h]
    · rcases hb : cell.is_black with _ | _
      · rcases hl : cell.letter with _ | le
        · simp [h, hb, hl, ih]
        · rcases heq : decide (le = w.getD i ' ') with _ | _
          · simp at heq
            simp [h, hb, hl, heq]
          · simp at heq
            simp [h, hb, hl, heq, ih]
      · simp [h, hb]

theorem canPlaceAdjSt_run (row col : Int) (d : Direction) :
    ∀ (l : List Nat) (g : Grid),
      canPlaceAdjSt row col d l g =
        ((l.all fun i =>
          match g.get_cell (posAt row col d i).1 (posAt row col d i).2 with
          | none => true
          | some cell =>
            if cell.letter.isNone then
              !(g.cellHasLetter (orthBefore (posAt row col d i) d).1
                  (orthBefore (posAt row col d i) d).2) &&
              !(g.cellHasLetter (orthAfter (posAt row col d i) d).1
                  (orthAfter (posAt row col d i) d).2)
            else true), g) := by
  intro l
  induction l with
  | nil => intro g; rfl
  | cons i rest ih =>
    intro g
    rw [canPlaceAdjSt, cellHasLetterSt_run]
    dsimp only
    rw [cellHasLetterSt_run]
    dsimp only [getCellSt]
    rcases h : g.get_cell (posAt row col d i).1 (posAt row col d i).2 with _ | cell
    · simp [h, ih]
    · rcases hl : cell.letter with _ | le
      · rcases h1 : g.cellHasLetter (orthBefore (posAt row col d i) d).1
            (orthBefore (posAt row col d i) d).2 with _ | _
        · rcases h2 : g.cellHasLetter (orthAfter (posAt row col d i) d).1
              (orthAfter (posAt row col d i) d).2 with _ | _
          · simp [h, hl, h1, h2, ih]
          · simp [h, hl, h1, h2]
        · simp [h, hl, h1]
      · simp [h, hl, ih]

/-- The early-return chain at the tail of `can_place_wordSt`, as one boolean. -/
theorem ite_not_chain (A B C D : Bool) (g : Grid) :
    (if !A then ((false, g) : Bool × Grid)
     else if !B then (false, g)
     else if C then (false, g)
     else if D then (false, g)
     else (true, g)) = (A && B && (!C && !D), g) := by
  cases A <;> cases B <;> cases C <;> cases D <;> rfl

theorem can_place_wordSt_run (g : Grid) (word : List Char) (row col : Int) (d : Direction) :
    g.can_place_wordSt word row col d = (g.can_place_word word row col d, g) := by
  simp only [Grid.can_place_wordSt, canPlaceCellsSt_run, canPlaceAdjSt_run,
    cellHasLetterSt_run]
  rw [ite_not_chain]
  rfl

theorem countLettersSt_run (row col : Int) (d : Direction) :
    ∀ (l : List Nat) (acc : Nat) (g : Grid),
      countLettersSt row col d l acc g =
        (acc + l.countP
          (fun j => (g.get_letter (posAt row col d j).1 (posAt row col d j).2).isSome), g) := by
  intro l
  induction l with
  | nil => intro acc g; simp [countLettersSt]
  | cons j rest ih =>
    intro acc g
    rw [countLettersSt, getLetterSt_run]
    dsimp only
    rw [ih]
    rcases h : (g.get_letter (posAt row col d j).1 (posAt row col d j).2).isSome with _ | _ <;>
      simp [h, List.countP_cons] <;> omega

theorem fiInnerSt_run (word : List Char) (r c : Nat) (L : Char) :
    ∀ (l : List Nat) (acc : List (Int × Int × Direction × Nat)) (g : Grid),
      fiInnerSt word r c L l acc g =
        (acc ++ l.flatMap (fun i =>
          if (word.map Char.toUpper).getD i ' ' = L then
            (if g.can_place_word word (r : Int) ((c : Int) - (i : Int)) .ACROSS then
              [((r : Int), (c : Int) - (i : Int), Direction.ACROSS,
                g.overlapCount (word.map Char.toUpper).length (r : Int)
                  ((c : Int) - (i : Int)) .ACROSS)]
            else []) ++
            (if g.can_place_word word ((r : Int) - (i : Int)) (c : Int) .DOWN then
              [((r : Int) - (i : Int), (c : Int), Direction.DOWN,
                g.overlapCount (word.map Char.toUpper).length ((r : Int) - (i : Int))
                  (c : Int) .DOWN)]
            else [])
          else []), g) := by
  intro l
  induction l with
  | nil => intro acc g; simp [fiInnerSt]
  | cons i rest ih =>
    intro acc g
    rw [fiInnerSt]
    by_cases hL' : (word.map Char.toUpper).getD i ' ' = L
    · rw [if_pos hL']
      simp only [can_place_wordSt_run, countLettersSt_run]
      try dsimp only
      by_cases hA : g.can_place_word word (r : Int) ((c : Int) - (i : Int)) .ACROSS = true <;>
        by_cases hD : g.can_place_word word ((r : Int) - (i : Int)) (c : Int) .DOWN = true <;>
        simp only [hA, hD, if_true, if_false, Bool.not_eq_true] <;>
        rw [ih] <;>
        simp only [List.flatMap_cons, hL', hA, hD, eq_self_iff_true, if_true, if_false,
          Bool.false_eq_true, Grid.overlapCount, List.append_assoc, List.cons_append,
          List.singleton_append, List.nil_append, Nat.zero_add]
    · rw [if_neg hL', ih]
      simp only [List.flatMap_cons, if_neg hL', List.nil_append]

theorem fiCellsSt_run (word : List Char) :
    ∀ (coords : List (Nat × Nat)) (acc : List (Int × Int × Direction × Nat)) (g : Grid),
      fiCellsSt word coords acc g =
        (acc ++ coords.flatMap (fun rc =>
          match g.get_cell (rc.1 : Int) (rc.2 : Int) with
          | none => []
          | some cell =>
            match cell.letter with
            | none => []
            | some L =>
              (List.range (word.map Char.toUpper).length).flatMap (fun i =>
                if (word.map Char.toUpper).getD i ' ' = L then
                  (if g.can_place_word word (rc.1 : Int) ((rc.2 : Int) - (i : Int)) .ACROSS then
                    [((rc.1 : Int), (rc.2 : Int) - (i : Int), Direction.ACROSS,
                      g.overlapCount (word.map Char.toUpper).length (rc.1 : Int)
                        ((rc.2 : Int) - (i : Int)) .ACROSS)]
                  else []) ++
                  (if g.can_place_word word ((rc.1 : Int) - (i : Int)) (rc.2 : Int) .DOWN then
                    [((rc.1 : Int) - (i : Int), (rc.2 : Int), Direction.DOWN,
                      g.overlapCount (word.map Char.toUpper).length ((rc.1 : Int) - (i : Int))
                        (rc.2 : Int) .DOWN)]
                  else [])
                else [])), g) := by
  intro coords
  induction coords with
  | nil => intro acc g; simp [fiCellsSt]
  | cons rc rest ih =>
    intro acc g
    rw [fiCellsSt]
    dsimp only [getCellSt]
    rcases h : g.get_cell (rc.1 : Int) (rc.2 : Int) with _ | cell
    · dsimp only
      rw [ih]
      simp [List.flatMap_cons, h]
    · dsimp only
      rcases hl : cell.letter with _ | L
      · rw [ih]
        simp [List.flatMap_cons, h, hl]
      · simp only [hl]
        rw [fiInnerSt_run]
        dsimp only
        rw [ih]
        simp [List.flatMap_cons, h, hl, List.append_assoc]

theorem flatMap_coordList {α : Type} (g : Grid) (F : Nat × Nat → List α) :
    g.coordList.flatMap F =
      (List.range g.rows).flatMap fun r => (List.range g.cols).flatMap fun c => F (r, c) := by
  rw [Grid.coordList, List.flatMap_assoc]
  exact congrArg (List.range g.rows).flatMap (funext fun r => List.flatMap_map _ _ _)

theorem find_intersectionsSt_run (g : Grid) (word : List Char) :
    g.find_intersectionsSt word = (g.find_intersections word, g) := by
  rw [Grid.find_intersectionsSt, fiCellsSt_run, flatMap_coordList]
  simp only [List.nil_append]
  rfl

/-- C9 (confirmed).  Running the state-passing translations of
`can_place_word` and `find_intersections` returns the grid unchanged — every
cell, the placed-word list and the number counter included — and their
returned values coincide with the pure embeddings'. -/
theorem C9_no_side_effects (g : Grid) (word : List Char) (row col : Int) (d : Direction) :
    (g.can_place_wordSt word row col d).2 = g ∧
    (g.can_place_wordSt word row col d).1 = g.can_place_word word row col d ∧
    (g.find_intersectionsSt word).2 = g ∧
    (g.find_intersectionsSt word).1 = g.find_intersections word := by
  rw [can_place_wordSt_run, find_intersectionsSt_run]
  exact ⟨rfl, rfl, rfl, rfl⟩

/-! ## Claim C4: the contract of `compact` -/

/-- Row `r` of a grid holds at least one letter. -/
def Grid.rowHasLetter (g : Grid) (r : Nat) : Bool :=
  (List.range g.cols).any fun c => (g.content r c).letter.isSome

/-- Column `c` of a grid holds at least one letter. -/
def Grid.colHasLetter (g : Grid) (c : Nat) : Bool :=
  (List.range g.rows).any fun r => (g.content r c).letter.isSome

/-- The grid holds at least one letter. -/
def Grid.hasAnyLetter (g : Grid) : Bool :=
  (List.range g.rows).any fun r => g.rowHasLetter r

theorem hasAnyLetter_iff (g : Grid) :
    g.hasAnyLetter = true ↔ g.filledCoords ≠ [] := by
  rw [Grid.hasAnyLetter]
  simp only [List.any_eq_true, List.mem_range, Grid.rowHasLetter, Ne,
    List.eq_nil_iff_forall_not_mem, not_forall, not_not]
  constructor
  · rintro ⟨r, hr, c, hc, hl⟩
    exact ⟨(r, c), (mem_filledCoords g (r, c)).mpr ⟨hr, hc, hl⟩⟩
  · rintro ⟨p, hp⟩
    obtain ⟨h1, h2, h3⟩ := (mem_filledCoords g p).mp hp
    exact ⟨p.1, h1, p.2, h2, h3⟩

/-- On a grid with at least one letter, `get_bounds` is exactly the least
box containing every letter-bearing coordinate. -/
theorem get_bounds_spec (g : Grid) (hne : g.filledCoords ≠ []) :
    (∀ p ∈ g.filledCoords, g.get_bounds.1 ≤ p.1 ∧ g.get_bounds.2.1 ≤ p.2 ∧
       p.1 ≤ g.get_bounds.2.2.1 ∧ p.2 ≤ g.get_bounds.2.2.2) ∧
    (∃ p ∈ g.filledCoords, p.1 = g.get_bounds.1) ∧
    (∃ p ∈ g.filledCoords, p.2 = g.get_bounds.2.1) ∧
    (∃ p ∈ g.filledCoords, p.1 = g.get_bounds.2.2.1) ∧
    (∃ p ∈ g.filledCoords, p.2 = g.get_bounds.2.2.2) := by
  obtain ⟨p0, hp0⟩ := List.exists_mem_of_ne_nil _ hne
  have hnf : ¬ ((g.filledCoords.map Prod.fst).foldl max 0 <
      (g.filledCoords.map Prod.fst).foldl min g.rows) := by
    have h1 := foldl_min_le_mem (List.mem_map_of_mem Prod.fst hp0) g.rows
    have h2 := mem_le_foldl_max (List.mem_map_of_mem Prod.fst hp0) 0
    omega
  have hb : g.get_bounds =
      ((g.filledCoords.map Prod.fst).foldl min g.rows,
       (g.filledCoords.map Prod.snd).foldl min g.cols,
       (g.filledCoords.map Prod.fst).foldl max 0,
       (g.filledCoords.map Prod.snd).foldl max 0) := by
    rw [get_bounds_def, if_neg hnf]
  rw [hb]
  dsimp only
  refine ⟨?_, ?_, ?_, ?_, ?_⟩
  · intro p hp
    exact ⟨foldl_min_le_mem (List.mem_map_of_mem Prod.fst hp) _,
      foldl_min_le_mem (List.mem_map_of_mem Prod.snd hp) _,
      mem_le_foldl_max (List.mem_map_of_mem Prod.fst hp) _,
      mem_le_foldl_max (List.mem_map_of_mem Prod.snd hp) _⟩
  · rcases foldl_min_cases (g.filledCoords.map Prod.fst) g.rows with h | h
    · have h1 := foldl_min_le_mem (List.mem_map_of_mem Prod.fst hp0) g.rows
      have h2 := ((mem_filledCoords g p0).mp hp0).1
      omega
    · obtain ⟨p, hp, hpe⟩ := List.mem_map.mp h
      exact ⟨p, hp, hpe⟩
  · rcases foldl_min_cases (g.filledCoords.map Prod.snd) g.cols with h | h
    · have h1 := foldl_min_le_mem (List.mem_map_of_mem Prod.snd hp0) g.cols
      have h2 := ((mem_filledCoords g p0).mp hp0).2.1
      omega
    · obtain ⟨p, hp, hpe⟩ := List.mem_map.mp h
      exact ⟨p, hp, hpe⟩
  · rcases foldl_max_cases (g.filledCoords.map Prod.fst) 0 with h | h
    · have h2 := mem_le_foldl_max (List.mem_map_of_mem Prod.fst hp0) 0
      exact ⟨p0, hp0, by omega⟩
    · obtain ⟨p, hp, hpe⟩ := List.mem_map.mp h
      exact ⟨p, hp, hpe⟩
  · rcases foldl_max_cases (g.filledCoords.map Prod.snd) 0 with h | h
    · have h2 := mem_le_foldl_max (List.mem_map_of_mem Prod.snd hp0) 0
      exact ⟨p0, hp0, by omega⟩
    · obtain ⟨p, hp, hpe⟩ := List.mem_map.mp h
      exact ⟨p, hp, hpe⟩

/-- `get_bounds` is determined by the box-bounding properties. -/
theorem get_bounds_eq_of (g : Grid) (mr mc Mr Mc : Nat) (hne : g.filledCoords ≠ [])
    (hle : ∀ p ∈ g.filledCoords, mr ≤ p.1 ∧ mc ≤ p.2 ∧ p.1 ≤ Mr ∧ p.2 ≤ Mc)
    (hex1 : ∃ p ∈ g.filledCoords, p.1 = mr) (hex2 : ∃ p ∈ g.filledCoords, p.2 = mc)
    (hex3 : ∃ p ∈ g.filledCoords, p.1 = Mr) (hex4 : ∃ p ∈ g.filledCoords, p.2 = Mc) :
    g.get_bounds = (mr, mc, Mr, Mc) := by
  obtain ⟨hsle, ⟨q1, hq1, he1⟩, ⟨q2, hq2, he2⟩, ⟨q3, hq3, he3⟩, ⟨q4, hq4, he4⟩⟩ :=
    get_bounds_spec g hne
  obtain ⟨p1, hp1, hpe1⟩ := hex1
  obtain ⟨p2, hp2, hpe2⟩ := hex2
  obtain ⟨p3, hp3, hpe3⟩ := hex3
  obtain ⟨p4, hp4, hpe4⟩ := hex4
  have g1 := hsle p1 hp1
  have g2 := hsle p2 hp2
  have g3 := hsle p3 hp3
  have g4 := hsle p4 hp4
  have f1 := hle q1 hq1
  have f2 := hle q2 hq2
  have f3 := hle q3 hq3
  have f4 := hle q4 hq4
  have e1 : g.get_bounds.1 = mr := by omega
  have e2 : g.get_bounds.2.1 = mc := by omega
  have e3 : g.get_bounds.2.2.1 = Mr := by omega
  have e4 : g.get_bounds.2.2.2 = Mc := by omega
  rcases hB : g.get_bounds with ⟨a, b, x, y⟩
  rw [hB] at e1 e2 e3 e4
  simp at e1 e2 e3 e4
  simp [e1, e2, e3, e4]

/-- The cell function of `compact`, spelled out. -/
theorem compact_content (g : Grid) (r c : Nat) :
    g.compact.content r c =
      (if r < ((g.get_bounds.2.2.1 : Int) - (g.get_bounds.1 : Int) + 1).toNat ∧
          c < ((g.get_bounds.2.2.2 : Int) - (g.get_bounds.2.1 : Int) + 1).toNat ∧
          g.get_bounds.1 + r < g.rows ∧ g.get_bounds.2.1 + c < g.cols then
        { row := (r : Int), col := (c : Int),
          letter := (g.content (g.get_bounds.1 + r) (g.get_bounds.2.1 + c)).letter,
          is_black := (g.content (g.get_bounds.1 + r) (g.get_bounds.2.1 + c)).is_black,
          number := (g.content (g.get_bounds.1 + r) (g.get_bounds.2.1 + c)).number }
      else Cell.init (r : Int) (c : Int)) := rfl

theorem compact_placed_words (g : Grid) :
    g.compact.placed_words = g.placed_words.map fun pw =>
      { pw with row := pw.row - (g.get_bounds.1 : Int),
                col := pw.col - (g.get_bounds.2.1 : Int) } := rfl

theorem compact_next_number (g : Grid) : g.compact.next_number = g.next_number := rfl

/-- Rebuilding a cell from its own fields, with matching coordinates, is the
identity. -/
theorem cell_rebuild (x : Cell) (r c : Int) (hr : x.row = r) (hc : x.col = c) :
    ({ row := r, col := c, letter := x.letter, is_black := x.is_black,
       number := x.number } : Cell) = x := by
  cases x
  cases hr
  cases hc
  rfl

theorem compact_content_coords (g : Grid) (r c : Nat) :
    (g.compact.content r c).row = (r : Int) ∧ (g.compact.content r c).col = (c : Int) := by
  rw [compact_content]
  split
  · exact ⟨rfl, rfl⟩
  · exact ⟨rfl, rfl⟩

/-- Out of its own extent, a compacted grid's cell function is inert. -/
theorem compact_content_out (g : Grid) (r c : Nat)
    (h : ¬(r < g.compact.rows ∧ c < g.compact.cols)) :
    g.compact.content r c = Cell.init (r : Int) (c : Int) := by
  rw [compact_content, if_neg]
  rw [compact_rows, compact_cols] at h
  intro hcon
  exact h ⟨hcon.1, hcon.2.1⟩

theorem compact_dims_of_letter (g : Grid) (hne : g.filledCoords ≠ []) :
    g.compact.rows = g.get_bounds.2.2.1 - g.get_bounds.1 + 1 ∧
    g.compact.cols = g.get_bounds.2.2.2 - g.get_bounds.2.1 + 1 := by
  obtain ⟨hsle, _⟩ := get_bounds_spec g hne
  obtain ⟨p0, hp0⟩ := List.exists_mem_of_ne_nil _ hne
  have h1 := hsle p0 hp0
  rw [compact_rows, compact_cols]
  omega

/-- Translating a placed word by zero is the identity. -/
theorem placed_translate_zero (l : List PlacedWord) :
    (l.map fun pw => { pw with row := pw.row - ((0 : Nat) : Int),
                               col := pw.col - ((0 : Nat) : Int) }) = l := by
  have h : ∀ pw : PlacedWord,
      ({ pw with row := pw.row - ((0 : Nat) : Int),
                 col := pw.col - ((0 : Nat) : Int) }) = pw := by
    intro pw
    cases pw
    simp
  calc l.map _ = l.map id := List.map_congr_left fun pw _ => h pw
    _ = l := List.map_id l

/-- The heart of idempotence: once a grid's bounds start at the origin and
reach its last row and column, compacting it again changes nothing. -/
theorem compact_idem_core (g : Grid)
    (h0 : g.compact.get_bounds.1 = 0) (h01 : g.compact.get_bounds.2.1 = 0)
    (hr : g.compact.get_bounds.2.2.1 = g.compact.rows - 1)
    (hc : g.compact.get_bounds.2.2.2 = g.compact.cols - 1)
    (hrp : 1 ≤ g.compact.rows) (hcp : 1 ≤ g.compact.cols) :
    g.compact.compact = g.compact := by
  have hrows : g.compact.compact.rows = g.compact.rows := by
    rw [compact_rows g.compact, h0, hr]
    omega
  have hcols : g.compact.compact.cols = g.compact.cols := by
    rw [compact_cols g.compact, h01, hc]
    omega
  refine Grid.ext hrows hcols ?_ ?_ (compact_next_number g.compact)
  · funext r c
    rw [compact_content g.compact, h0, h01, hr, hc]
    by_cases hin : r < g.compact.rows ∧ c < g.compact.cols
    · rw [if_pos (by constructor <;> [omega; constructor] <;> [omega; constructor] <;> omega)]
      rw [Nat.zero_add, Nat.zero_add]
      exact cell_rebuild _ _ _ (compact_content_coords g r c).1 (compact_content_coords g r c).2
    · rw [if_neg (by intro hcon; exact hin ⟨by omega, by omega⟩)]
      exact (compact_content_out g r c hin).symm
  · rw [compact_placed_words g.compact, h0, h01]
    exact placed_translate_zero _

theorem filledCoords_eq_nil_iff (g : Grid) :
    g.filledCoords = [] ↔
      ∀ r c, r < g.rows → c < g.cols → (g.content r c).letter = none := by
  rw [List.eq_nil_iff_forall_not_mem]
  constructor
  · intro h r c hr hc
    by_contra hcon
    exact h (r, c) ((mem_filledCoords g (r, c)).mpr
      ⟨hr, hc, Option.isSome_iff_ne_none.mpr hcon⟩)
  · intro h p hp
    obtain ⟨h1, h2, h3⟩ := (mem_filledCoords g p).mp hp
    rw [h p.1 p.2 h1 h2] at h3
    cases h3

theorem get_bounds_letterless (g : Grid) (hfe : g.filledCoords = [])
    (hshape : 1 ≤ g.rows ∨ g.cols = 0) : g.get_bounds = (0, 0, 0, 0) := by
  rw [get_bounds_def, hfe]
  simp only [List.map_nil, List.foldl_nil]
  split
  · rfl
  · rename_i hlt
    have h0 : g.rows = 0 := by omega
    rcases hshape with h | h
    · exact absurd h (by omega)
    · simp [h, h0]

/-- The translate of a letter-bearing coordinate is letter-bearing in the
compacted grid. -/
theorem compact_filled_translate (g : Grid) {p : Nat × Nat} (hp : p ∈ g.filledCoords)
    (hne : g.filledCoords ≠ []) :
    ((p.1 - g.get_bounds.1, p.2 - g.get_bounds.2.1) : Nat × Nat) ∈ g.compact.filledCoords := by
  obtain ⟨hsle, _⟩ := get_bounds_spec g hne
  obtain ⟨hpr, hpc, hps⟩ := (mem_filledCoords g p).mp hp
  have hb := hsle p hp
  obtain ⟨hrows, hcols⟩ := compact_dims_of_letter g hne
  refine (mem_filledCoords _ _).mpr ⟨?_, ?_, ?_⟩
  · rw [hrows]
    omega
  · rw [hcols]
    omega
  · rw [compact_content, if_pos (by refine ⟨?_, ?_, ?_, ?_⟩ <;> omega)]
    dsimp only
    have e1 : g.get_bounds.1 + (p.1 - g.get_bounds.1) = p.1 := by omega
    have e2 : g.get_bounds.2.1 + (p.2 - g.get_bounds.2.1) = p.2 := by omega
    rw [e1, e2]
    exact hps

theorem compact_bounds_of_letter (g : Grid) (hne : g.filledCoords ≠ []) :
    g.compact.get_bounds =
      (0, 0, g.get_bounds.2.2.1 - g.get_bounds.1,
       g.get_bounds.2.2.2 - g.get_bounds.2.1) := by
  obtain ⟨hsle, ⟨q1, hq1, he1⟩, ⟨q2, hq2, he2⟩, ⟨q3, hq3, he3⟩, ⟨q4, hq4, he4⟩⟩ :=
    get_bounds_spec g hne
  obtain ⟨hrows, hcols⟩ := compact_dims_of_letter g hne
  apply get_bounds_eq_of
  · exact List.ne_nil_of_mem (compact_filled_translate g hq1 hne)
  · intro p hp
    obtain ⟨h1, h2, _⟩ := (mem_filledCoords _ p).mp hp
    rw [hrows] at h1
    rw [hcols] at h2
    exact ⟨Nat.zero_le _, Nat.zero_le _, by omega, by omega⟩
  · exact ⟨_, compact_filled_translate g hq1 hne, by dsimp only; omega⟩
  · exact ⟨_, compact_filled_translate g hq2 hne, by dsimp only; omega⟩
  · exact ⟨_, compact_filled_translate g hq3 hne, by dsimp only; omega⟩
  · exact ⟨_, compact_filled_translate g hq4 hne, by dsimp only; omega⟩

theorem compact_letterless (g : Grid) (hfe : g.filledCoords = []) :
    g.compact.filledCoords = [] := by
  rw [filledCoords_eq_nil_iff]
  intro r c hr hc
  rw [compact_content]
  split
  · rename_i hg
    exact (filledCoords_eq_nil_iff g).mp hfe _ _ hg.2.2.1 hg.2.2.2
  · rfl

/-- C4's idempotence, for every grid with at least one row (and the 0x0
grid): compacting twice equals compacting once. -/
theorem compact_idem (g : Grid) (hshape : 1 ≤ g.rows ∨ g.cols = 0) :
    g.compact.compact = g.compact := by
  by_cases hfe : g.filledCoords = []
  · have hgb := get_bounds_letterless g hfe hshape
    have hb := get_bounds_letterless g.compact (compact_letterless g hfe)
      (Or.inl (by rw [compact_rows, hgb]; rfl))
    have hr1 : g.compact.rows = 1 := by
      rw [compact_rows, hgb]
      rfl
    have hc1 : g.compact.cols = 1 := by
      rw [compact_cols, hgb]
      rfl
    exact compact_idem_core g (by rw [hb]) (by rw [hb]) (by rw [hb, hr1])
      (by rw [hb, hc1]) (by omega) (by omega)
  · have hb := compact_bounds_of_letter g hfe
    obtain ⟨hrows, hcols⟩ := compact_dims_of_letter g hfe
    exact compact_idem_core g (by rw [hb]) (by rw [hb])
      (by rw [hb, hrows]; dsimp only; omega)
      (by rw [hb, hcols]; dsimp only; omega)
      (by rw [hrows]; omega) (by rw [hcols]; omega)

/-- A compacted grid with at least one letter has a letter in its first and
last rows and columns. -/
theorem compact_borders (g : Grid) (hl : g.hasAnyLetter = true) :
    g.compact.rowHasLetter 0 = true ∧
    g.compact.rowHasLetter (g.compact.rows - 1) = true ∧
    g.compact.colHasLetter 0 = true ∧
    g.compact.colHasLetter (g.compact.cols - 1) = true := by
  have hne := (hasAnyLetter_iff g).mp hl
  obtain ⟨hsle, ⟨q1, hq1, he1⟩, ⟨q2, hq2, he2⟩, ⟨q3, hq3, he3⟩, ⟨q4, hq4, he4⟩⟩ :=
    get_bounds_spec g hne
  obtain ⟨hrows, hcols⟩ := compact_dims_of_letter g hne
  refine ⟨?_, ?_, ?_, ?_⟩
  · obtain ⟨hm1, hm2, hm3⟩ :=
      (mem_filledCoords _ _).mp (compact_filled_translate g hq1 hne)
    rw [Grid.rowHasLetter, List.any_eq_true]
    refine ⟨q1.2 - g.get_bounds.2.1, List.mem_range.mpr hm2, ?_⟩
    have e : q1.1 - g.get_bounds.1 = 0 := by omega
    rw [e] at hm3
    exact hm3
  · obtain ⟨hm1, hm2, hm3⟩ :=
      (mem_filledCoords _ _).mp (compact_filled_translate g hq3 hne)
    rw [Grid.rowHasLetter, List.any_eq_true]
    refine ⟨q3.2 - g.get_bounds.2.1, List.mem_range.mpr hm2, ?_⟩
    have e : q3.1 - g.get_bounds.1 = g.compact.rows - 1 := by
      rw [hrows]
      have := hsle q3 hq3
      omega
    rw [e] at hm3
    exact hm3
  · obtain ⟨hm1, hm2, hm3⟩ :=
      (mem_filledCoords _ _).mp (compact_filled_translate g hq2 hne)
    rw [Grid.colHasLetter, List.any_eq_true]
    refine ⟨q2.1 - g.get_bounds.1, List.mem_range.mpr hm1, ?_⟩
    have e : q2.2 - g.get_bounds.2.1 = 0 := by omega
    rw [e] at hm3
    exact hm3
  · obtain ⟨hm1, hm2, hm3⟩ :=
      (mem_filledCoords _ _).mp (compact_filled_translate g hq4 hne)
    rw [Grid.colHasLetter, List.any_eq_true]
    refine ⟨q4.1 - g.get_bounds.1, List.mem_range.mpr hm1, ?_⟩
    have e : q4.2 - g.get_bounds.2.1 = g.compact.cols - 1 := by
      rw [hcols]
      have := hsle q4 hq4
      omega
    rw [e] at hm3
    exact hm3

/-- Cells inside the bounding box are copied, fields intact, to the
translated coordinates. -/
theorem compact_preserves_box (g : Grid) (r c : Nat)
    (h1 : g.get_bounds.1 ≤ r) (h2 : r ≤ g.get_bounds.2.2.1)
    (h3 : g.get_bounds.2.1 ≤ c) (h4 : c ≤ g.get_bounds.2.2.2)
    (h5 : r < g.rows) (h6 : c < g.cols) :
    (g.compact.content (r - g.get_bounds.1) (c - g.get_bounds.2.1)).letter
        = (g.content r c).letter ∧
    (g.compact.content (r - g.get_bounds.1) (c - g.get_bounds.2.1)).is_black
        = (g.content r c).is_black ∧
    (g.compact.content (r - g.get_bounds.1) (c - g.get_bounds.2.1)).number
        = (g.content r c).number := by
  rw [compact_content, if_pos (by refine ⟨?_, ?_, ?_, ?_⟩ <;> omega)]
  dsimp only
  have e1 : g.get_bounds.1 + (r - g.get_bounds.1) = r := by omega
  have e2 : g.get_bounds.2.1 + (c - g.get_bounds.2.1) = c := by omega
  rw [e1, e2]
  exact ⟨rfl, rfl, rfl⟩

/-- C4's counterexample.  The letterless 1x1 grid compacts to a 1x1 grid
whose single (border) row holds no letter, refuting "contains no fully-empty
border row or column" for grids without letters; and the 0-row, 1-column
grid's compaction (a 1x0 grid) changes again under `compact` (to a 1x1
grid), refuting unconditional idempotence. -/
theorem C4_counterexample :
    ((Grid.init 1 1).compact.rows = 1 ∧ (Grid.init 1 1).compact.rowHasLetter 0 = false) ∧
    ((Grid.init 0 1).compact.cols = 0 ∧ (Grid.init 0 1).compact.compact.cols = 1) :=
  ⟨⟨rfl, rfl⟩, ⟨rfl, rfl⟩⟩

/-- C4 (corrected): `compact` crops to the bounding box of the letter-bearing
cells — every in-box cell's letter, black flag and number reappear at the
coordinates translated by `(-minRow, -minCol)`, and every placed word is
re-recorded with its start translated likewise; when the grid holds at least
one letter the compaction has no fully-empty border row or column; and
compacting is idempotent for every grid with at least one row (and for the
0x0 grid) — in particular for every grid that holds a letter or that a
generator produces. -/
theorem C4_compact_contract (g : Grid) :
    (g.compact.placed_words = g.placed_words.map fun pw =>
      { pw with row := pw.row - (g.get_bounds.1 : Int),
                col := pw.col - (g.get_bounds.2.1 : Int) }) ∧
    (∀ r c, g.get_bounds.1 ≤ r → r ≤ g.get_bounds.2.2.1 →
       g.get_bounds.2.1 ≤ c → c ≤ g.get_bounds.2.2.2 → r < g.rows → c < g.cols →
       (g.compact.content (r - g.get_bounds.1) (c - g.get_bounds.2.1)).letter
           = (g.content r c).letter ∧
       (g.compact.content (r - g.get_bounds.1) (c - g.get_bounds.2.1)).is_black
           = (g.content r c).is_black ∧
       (g.compact.content (r - g.get_bounds.1) (c - g.get_bounds.2.1)).number
           = (g.content r c).number) ∧
    (g.hasAnyLetter = true →
       g.compact.rowHasLetter 0 = true ∧
       g.compact.rowHasLetter (g.compact.rows - 1) = true ∧
       g.compact.colHasLetter 0 = true ∧
       g.compact.colHasLetter (g.compact.cols - 1) = true) ∧
    ((1 ≤ g.rows ∨ g.cols = 0) → g.compact.compact = g.compact) :=
  ⟨compact_placed_words g,
   fun r c h1 h2 h3 h4 h5 h6 => compact_preserves_box g r c h1 h2 h3 h4 h5 h6,
   fun hl => compact_borders g hl,
   fun hshape => compact_idem g hshape⟩

/-! ## Claim C3: the contract of `find_intersections` -/

theorem mem_singleton_ite {β : Type} (P : Prop) [Decidable P] (a t : β) :
    (t ∈ if P then [a] else ([] : List β)) ↔ P ∧ t = a := by
  split
  · rename_i h
    simp [h]
  · rename_i h
    simp [h]

/-- Letters already on a valid placement's cells all match the word. -/
theorem can_place_letters_match (g : Grid) (word : List Char) (row col : Int) (d : Direction)
    (hcan : g.can_place_word word row col d = true) :
    ∀ j < (word.map Char.toUpper).length,
      (g.get_letter (posAt row col d j).1 (posAt row col d j).2).isSome = true →
      g.get_letter (posAt row col d j).1 (posAt row col d j).2 =
        some ((word.map Char.toUpper).getD j ' ') := by
  intro j hj hsome
  obtain ⟨h1, _, _, _⟩ := (can_place_word_iff_spec g word row col d).mp hcan
  obtain ⟨cell, hc, hb, hl⟩ := h1 j hj
  rw [Grid.get_letter, hc] at hsome ⊢
  dsimp only at hsome ⊢
  rcases hl with hl | hl
  · rw [hl] at hsome
    cases hsome
  · exact hl

/-- Soundness half of C3: every offered tuple passes `can_place_word`,
aligns a word character with a matching occupied cell, and counts exactly
the letter-bearing cells along the placement. -/
theorem find_intersections_sound (g : Grid) (word : List Char)
    (t : Int × Int × Direction × Nat) (ht : t ∈ g.find_intersections word) :
    g.can_place_word word t.1 t.2.1 t.2.2.1 = true ∧
    t.2.2.2 = g.overlapCount (word.map Char.toUpper).length t.1 t.2.1 t.2.2.1 ∧
    (∃ i < (word.map Char.toUpper).length,
       g.get_letter (posAt t.1 t.2.1 t.2.2.1 i).1 (posAt t.1 t.2.1 t.2.2.1 i).2 =
         some ((word.map Char.toUpper).getD i ' ')) := by
  rw [Grid.find_intersections] at ht
  simp only [List.mem_flatMap, List.mem_range] at ht
  obtain ⟨r, hr, c, hc, ht⟩ := ht
  rcases hcell : g.get_cell (r : Int) (c : Int) with _ | cell
  · rw [hcell] at ht
    dsimp only at ht
    cases ht
  · rw [hcell] at ht
    dsimp only at ht
    rcases hletter : cell.letter with _ | L
    · rw [hletter] at ht
      dsimp only at ht
      cases ht
    · rw [hletter] at ht
      dsimp only at ht
      simp only [List.mem_flatMap, List.mem_range] at ht
      obtain ⟨i, hi, ht⟩ := ht
      by_cases hL : (word.map Char.toUpper).getD i ' ' = L
      · rw [if_pos hL] at ht
        rw [List.mem_append, mem_singleton_ite, mem_singleton_ite] at ht
        have hget : g.get_letter (r : Int) (c : Int) =
            some ((word.map Char.toUpper).getD i ' ') := by
          rw [Grid.get_letter, hcell]
          dsimp only
          rw [hletter, hL]
        rcases ht with ⟨hcan, rfl⟩ | ⟨hcan, rfl⟩
        · refine ⟨hcan, rfl, i, hi, ?_⟩
          have e : (c : Int) - (i : Int) + (i : Int) = (c : Int) := by omega
          simpa [posAt, e] using hget
        · refine ⟨hcan, rfl, i, hi, ?_⟩
          have e : (r : Int) - (i : Int) + (i : Int) = (r : Int) := by omega
          simpa [posAt, e] using hget
      · rw [if_neg hL] at ht
        cases ht

/-- Completeness half of C3: every `can_place_word`-passing alignment of a
word character with a matching occupied cell is offered, with its overlap
count. -/
theorem find_intersections_complete (g : Grid) (word : List Char) (r c i : Nat)
    (cell : Cell) (hr : r < g.rows) (hc : c < g.cols)
    (hcell : g.get_cell (r : Int) (c : Int) = some cell)
    (hi : i < (word.map Char.toUpper).length)
    (hletter : cell.letter = some ((word.map Char.toUpper).getD i ' ')) :
    (g.can_place_word word (r : Int) ((c : Int) - (i : Int)) .ACROSS = true →
       ((r : Int), (c : Int) - (i : Int), Direction.ACROSS,
        g.overlapCount (word.map Char.toUpper).length (r : Int)
          ((c : Int) - (i : Int)) .ACROSS) ∈ g.find_intersections word) ∧
    (g.can_place_word word ((r : Int) - (i : Int)) (c : Int) .DOWN = true →
       ((r : Int) - (i : Int), (c : Int), Direction.DOWN,
        g.overlapCount (word.map Char.toUpper).length ((r : Int) - (i : Int))
          (c : Int) .DOWN) ∈ g.find_intersections word) := by
  constructor
  all_goals
    intro hcan
    rw [Grid.find_intersections]
    simp only [List.mem_flatMap, List.mem_range]
    refine ⟨r, hr, c, hc, ?_⟩
    rw [hcell]
    dsimp only
    rw [hletter]
    dsimp only
    simp only [List.mem_flatMap, List.mem_range]
    refine ⟨i, hi, ?_⟩
    rw [if_pos rfl, List.mem_append, mem_singleton_ite, mem_singleton_ite]
  · exact Or.inl ⟨hcan, rfl⟩
  · exact Or.inr ⟨hcan, rfl⟩

/-- C3 (confirmed): every tuple returned by `find_intersections` passes
`can_place_word`, aligns some character of the (uppercased) word with an
occupied cell holding that letter, and carries as overlap count exactly the
number of letter-bearing cells along the placement (all of which match the
word); conversely, every such `can_place_word`-passing alignment appears in
the returned list. -/
theorem C3_find_intersections_contract (g : Grid) (word : List Char) :
    (∀ t ∈ g.find_intersections word,
       g.can_place_word word t.1 t.2.1 t.2.2.1 = true ∧
       t.2.2.2 = g.overlapCount (word.map Char.toUpper).length t.1 t.2.1 t.2.2.1 ∧
       (∃ i < (word.map Char.toUpper).length,
          g.get_letter (posAt t.1 t.2.1 t.2.2.1 i).1 (posAt t.1 t.2.1 t.2.2.1 i).2 =
            some ((word.map Char.toUpper).getD i ' ')) ∧
       (∀ j < (word.map Char.toUpper).length,
          (g.get_letter (posAt t.1 t.2.1 t.2.2.1 j).1 (posAt t.1 t.2.1 t.2.2.1 j).2).isSome
            = true →
          g.get_letter (posAt t.1 t.2.1 t.2.2.1 j).1 (posAt t.1 t.2.1 t.2.2.1 j).2 =
            some ((word.map Char.toUpper).getD j ' '))) ∧
    (∀ (r c i : Nat) (cell : Cell), r < g.rows → c < g.cols →
       g.get_cell (r : Int) (c : Int) = some cell →
       i < (word.map Char.toUpper).length →
       cell.letter = some ((word.map Char.toUpper).getD i ' ') →
       (g.can_place_word word (r : Int) ((c : Int) - (i : Int)) .ACROSS = true →
          ((r : Int), (c : Int) - (i : Int), Direction.ACROSS,
           g.overlapCount (word.map Char.toUpper).length (r : Int)
             ((c : Int) - (i : Int)) .ACROSS) ∈ g.find_intersections word) ∧
       (g.can_place_word word ((r : Int) - (i : Int)) (c : Int) .DOWN = true →
          ((r : Int) - (i : Int), (c : Int), Direction.DOWN,
           g.overlapCount (word.map Char.toUpper).length ((r : Int) - (i : Int))
             (c : Int) .DOWN) ∈ g.find_intersections word)) := by
  constructor
  · intro t ht
    obtain ⟨hcan, hovl, halign⟩ := find_intersections_sound g word t ht
    exact ⟨hcan, hovl, halign, can_place_letters_match g word t.1 t.2.1 t.2.2.1 hcan⟩
  · intro r c i cell hr hc hcell hi hletter
    exact find_intersections_complete g word r c i cell hr hc hcell hi hletter

/-! ## Claim C5: word numbers over sequences of placements -/

/-- The grids reachable from a freshly constructed grid by `place_word`
calls (each call returning normally, successful or not). -/
inductive Reaches : Grid → Prop
  | init (rows cols : Nat) : Reaches (Grid.init rows cols)
  | step {g g' : Grid} {res : Option PlacedWord} (word : List Char) (clue : String)
      (row col : Int) (d : Direction) :
      Reaches g → g.place_word word clue row col d = some (res, g') → Reaches g'

/-- The numbering invariant `place_word` maintains: every placed word's
number is stamped on its start cell, every stamped number is below the
counter, and no two cells carry the same number. -/
def NumberInv (g : Grid) : Prop :=
  (∀ pw ∈ g.placed_words, ∃ cell, g.get_cell pw.row pw.col = some cell ∧
     cell.number = some pw.number) ∧
  (∀ (r c n : Nat), r < g.rows → c < g.cols →
     (g.content r c).number = some n → n < g.next_number) ∧
  (∀ (r c r' c' n : Nat), r < g.rows → c < g.cols → r' < g.rows → c' < g.cols →
     (g.content r c).number = some n → (g.content r' c').number = some n →
     r = r' ∧ c = c')

/-- Inversion of one `place_word` call that returned: either it failed and
left the grid alone, or it appended one record whose number either reuses
the start cell's or is the freshly stamped counter value. -/
theorem place_word_inversion {g g' : Grid} {res : Option PlacedWord}
    {word : List Char} {clue : String} {row col : Int} {d : Direction}
    (h : g.place_word word clue row col d = some (res, g')) :
    (res = none ∧ g' = g) ∨
    (∃ pw cell0, res = some pw ∧ g.get_cell row col = some cell0 ∧
      pw.row = row ∧ pw.col = col ∧
      g'.rows = g.rows ∧ g'.cols = g.cols ∧
      g'.placed_words = g.placed_words ++ [pw] ∧
      ((cell0.number = some pw.number ∧ g'.next_number = g.next_number ∧
        (∀ r' c', (g'.content r' c').number = (g.content r' c').number)) ∨
       (cell0.number = none ∧ pw.number = g.next_number ∧
        g'.next_number = g.next_number + 1 ∧
        (∀ r' c', (g'.content r' c').number =
          (if r' = row.toNat ∧ c' = col.toNat then some g.next_number
           else (g.content r' c').number))))) := by
  unfold Grid.place_word at h
  by_cases hcan : g.can_place_word word row col d = true
  · rw [hcan] at h
    simp only [Bool.not_true, Bool.false_eq_true, if_false] at h
    rcases hc0 : g.get_cell row col with _ | cell0
    · rw [hc0] at h
      cases h
    · rw [hc0] at h
      rcases hnum : cell0.number with _ | n
      all_goals simp only [hnum] at h
      all_goals rw [Option.some.injEq, Prod.mk.injEq] at h
      all_goals obtain ⟨hres, hg'⟩ := h
      all_goals subst hg'
      all_goals refine Or.inr ⟨_, cell0, hres.symm, rfl, rfl, rfl, ?_, ?_, ?_, ?_⟩
      -- stamped branch
      · exact foldl_set_letter_rows _ _ _ _ _ _
      · exact foldl_set_letter_cols _ _ _ _ _ _
      · rw [foldl_set_letter_placed_words]
        rfl
      · refine Or.inr ⟨hnum, rfl, ?_, ?_⟩
        · rw [foldl_set_letter_next_number]
        · intro r' c'
          rw [foldl_set_letter_content_number]
          show ((g.setCell _ _ _).content r' c').number = _
          rw [setCell_content]
          split
          · rfl
          · rfl
      -- reuse branch
      · exact foldl_set_letter_rows _ _ _ _ _ _
      · exact foldl_set_letter_cols _ _ _ _ _ _
      · rw [foldl_set_letter_placed_words]
      · refine Or.inl ⟨by rw [hnum], ?_, ?_⟩
        · rw [foldl_set_letter_next_number]
        · intro r' c'
          rw [foldl_set_letter_content_number]
  · rw [Bool.not_eq_true] at hcan
    rw [hcan] at h
    simp only [Bool.not_false, if_true, Option.some.injEq, Prod.mk.injEq] at h
    exact Or.inl ⟨h.1.symm, h.2.symm⟩

theorem place_word_preserves_inv {g g' : Grid} {res : Option PlacedWord}
    {word : List Char} {clue : String} {row col : Int} {d : Direction}
    (h : g.place_word word clue row col d = some (res, g'))
    (hinv : NumberInv g) : NumberInv g' := by
  rcases place_word_inversion h with ⟨_, rfl⟩ |
    ⟨pw, cell0, hres, hc0, hprow, hpcol, hrows, hcols, hplaced, hcase⟩
  · exact hinv
  obtain ⟨hinv1, hinv2, hinv3⟩ := hinv
  obtain ⟨hr0, hcontent0⟩ := get_cell_some_range hc0
  rcases hcase with ⟨hnum0, hnext, hcont⟩ | ⟨hnum0, hpwnum, hnext, hcont⟩
  · -- reused number: stamped cells unchanged
    refine ⟨?_, ?_, ?_⟩
    · intro pw' hpw'
      rw [hplaced, List.mem_append] at hpw'
      rcases hpw' with hold | hnew
      · obtain ⟨cell, hcell, hn⟩ := hinv1 pw' hold
        obtain ⟨hrange, hct⟩ := get_cell_some_range hcell
        refine ⟨g'.content pw'.row.toNat pw'.col.toNat,
          get_cell_of_range _ _ _ (by rw [hrows, hcols]; exact hrange), ?_⟩
        rw [hcont, hct, hn]
      · rw [List.mem_singleton] at hnew
        subst hnew
        refine ⟨g'.content row.toNat col.toNat, ?_, ?_⟩
        · rw [hprow, hpcol]
          exact get_cell_of_range _ _ _ (by rw [hrows, hcols]; exact hr0)
        · rw [hcont, hcontent0, hnum0]
    · intro r c n hr hc hn
      rw [hrows] at hr
      rw [hcols] at hc
      rw [hcont] at hn
      rw [hnext]
      exact hinv2 r c n hr hc hn
    · intro r c r' c' n hr hc hr' hc' hn hn'
      rw [hrows] at hr hr'
      rw [hcols] at hc hc'
      rw [hcont] at hn hn'
      exact hinv3 r c r' c' n hr hc hr' hc' hn hn'
  · -- freshly stamped number
    refine ⟨?_, ?_, ?_⟩
    · intro pw' hpw'
      rw [hplaced, List.mem_append] at hpw'
      rcases hpw' with hold | hnew
      · obtain ⟨cell, hcell, hn⟩ := hinv1 pw' hold
        obtain ⟨hrange, hct⟩ := get_cell_some_range hcell
        refine ⟨g'.content pw'.row.toNat pw'.col.toNat,
          get_cell_of_range _ _ _ (by rw [hrows, hcols]; exact hrange), ?_⟩
        have hne : ¬(pw'.row.toNat = row.toNat ∧ pw'.col.toNat = col.toNat) := by
          rintro ⟨e1, e2⟩
          rw [e1, e2, hcontent0] at hct
          rw [← hct, hnum0] at hn
          cases hn
        rw [hcont, if_neg hne, hct, hn]
      · rw [List.mem_singleton] at hnew
        subst hnew
        refine ⟨g'.content row.toNat col.toNat, ?_, ?_⟩
        · rw [hprow, hpcol]
          exact get_cell_of_range _ _ _ (by rw [hrows, hcols]; exact hr0)
        · rw [hcont, if_pos ⟨rfl, rfl⟩, hpwnum]
    · intro r c n hr hc hn
      rw [hrows] at hr
      rw [hcols] at hc
      rw [hcont] at hn
      rw [hnext]
      by_cases he : r = row.toNat ∧ c = col.toNat
      · rw [if_pos he, Option.some.injEq] at hn
        omega
      · rw [if_neg he] at hn
        have := hinv2 r c n hr hc hn
        omega
    · intro r c r' c' n hr hc hr' hc' hn hn'
      rw [hrows] at hr hr'
      rw [hcols] at hc hc'
      rw [hcont] at hn hn'
      by_cases e1 : r = row.toNat ∧ c = col.toNat <;>
        by_cases e2 : r' = row.toNat ∧ c' = col.toNat
      · exact ⟨e1.1.trans e2.1.symm, e1.2.trans e2.2.symm⟩
      · rw [if_pos e1, Option.some.injEq] at hn
        rw [if_neg e2] at hn'
        have := hinv2 r' c' n hr' hc' hn'
        omega
      · rw [if_neg e1] at hn
        rw [if_pos e2, Option.some.injEq] at hn'
        have := hinv2 r c n hr hc hn
        omega
      · rw [if_neg e1] at hn
        rw [if_neg e2] at hn'
        exact hinv3 r c r' c' n hr hc hr' hc' hn hn'

theorem reaches_inv (g : Grid) (hg : Reaches g) : NumberInv g := by
  induction hg with
  | init rows cols =>
    refine ⟨?_, ?_, ?_⟩
    · intro pw hpw
      cases hpw
    · intro r c n hr hc hn
      simp [Grid.init, Cell.init] at hn
    · intro r c r' c' n hr hc hr' hc' hn hn'
      simp [Grid.init, Cell.init] at hn
  | step word clue row col d hr hstep ih =>
    exact place_word_preserves_inv hstep ih

/-- C5 (corrected): in every grid built by a sequence of `place_word` calls,
two placed words carry the same number exactly when they share a start cell;
in particular a start cell shared by an ACROSS and a DOWN word carries one
number used by both. -/
theorem C5_numbering (g : Grid) (hg : Reaches g) :
    ∀ pw ∈ g.placed_words, ∀ pw' ∈ g.placed_words,
      (pw.number = pw'.number ↔ pw.row = pw'.row ∧ pw.col = pw'.col) := by
  obtain ⟨h1, h2, h3⟩ := reaches_inv g hg
  intro pw hpw pw' hpw'
  obtain ⟨cell, hc, hn⟩ := h1 pw hpw
  obtain ⟨cell', hc', hn'⟩ := h1 pw' hpw'
  obtain ⟨hr, hct⟩ := get_cell_some_range hc
  obtain ⟨hr', hct'⟩ := get_cell_some_range hc'
  constructor
  · intro he
    have h3' := h3 pw.row.toNat pw.col.toNat pw'.row.toNat pw'.col.toNat pw.number
      (by omega) (by omega) (by omega) (by omega)
      (by rw [hct]; exact hn) (by rw [hct', hn', he])
    omega
  · rintro ⟨e1, e2⟩
    rw [e1, e2, hc'] at hc
    rw [Option.some.injEq] at hc
    rw [hc] at hn'
    rw [hn] at hn'
    exact (Option.some.injEq _ _).mp hn'

/-- A two-placement scenario: `AB` across at `(1, 1)` (number 1), then `CB`
down at `(0, 2)` crossing its `B` (number 2). -/
def gC5a : Grid :=
  match (Grid.init 5 5).place_word ['A', 'B'] "w1" 1 1 .ACROSS with
  | some (_, h) => h
  | none => Grid.init 5 5

def gC5 : Grid :=
  match gC5a.place_word ['C', 'B'] "w2" 0 2 .DOWN with
  | some (_, h) => h
  | none => gC5a

theorem reach_gC5 : Reaches gC5 :=
  Reaches.step ['C', 'B'] "w2" 0 2 .DOWN
    (Reaches.step ['A', 'B'] "w1" 1 1 .ACROSS (Reaches.init 5 5) rfl) rfl

/-- C5's counterexample: a grid produced by two `place_word` calls in which
the second word's start cell `(0, 2)` comes before the first word's `(1, 1)`
in row-major order, yet its number 2 is larger — numbers follow placement
order, not row-major order. -/
theorem C5_counterexample :
    Reaches gC5 ∧
    (gC5.placed_words.map fun pw => (pw.row, pw.col, pw.number)) =
      [(1, 1, 1), (0, 2, 2)] :=
  ⟨reach_gC5, by decide⟩

/-- Witness for `C5_numbering` at the concrete two-word grid `gC5`. -/
theorem C5_witness :
    (⟨['A', 'B'], "w1", 1, 1, Direction.ACROSS, 1⟩ : PlacedWord).number =
      (⟨['C', 'B'], "w2", 0, 2, Direction.DOWN, 2⟩ : PlacedWord).number ↔
    ((⟨['A', 'B'], "w1", 1, 1, Direction.ACROSS, 1⟩ : PlacedWord).row =
       (⟨['C', 'B'], "w2", 0, 2, Direction.DOWN, 2⟩ : PlacedWord).row ∧
     (⟨['A', 'B'], "w1", 1, 1, Direction.ACROSS, 1⟩ : PlacedWord).col =
       (⟨['C', 'B'], "w2", 0, 2, Direction.DOWN, 2⟩ : PlacedWord).col) :=
  C5_numbering gC5 reach_gC5 _ (by decide) _ (by decide)

/-! ## The generator layer: `src/word_list.py` and `src/generator.py`

The generators draw on Python's `random` module; it is embedded as an oracle
(`RandSrc`) indexed by a call counter that the control flow threads through,
so that every concrete run of the source is the run of the embedding at some
oracle.  Uncaught exceptions (`random.choice` on an empty list, and the
`AttributeError` `place_word` can raise) surface as `Except.error ()`. -/

/-- `Word` from `src/word_list.py`. -/
structure Word where
  word : List Char
  score : Int
  clue : Option String
deriving DecidableEq, Repr

/-- `WordList.filter_with_clues` from `src/word_list.py`: keep the words whose
clue is truthy (present and non-empty). -/
def filter_with_clues (wl : List Word) : List Word :=
  wl.filter fun w =>
    match w.clue with
    | some s => !(s == "")
    | none => false

/-- Python's `clue or fallback`: the clue when truthy, else the fallback. -/
def clueOr (c : Option String) (fallback : String) : String :=
  match c with
  | some s => if s = "" then fallback else s
  | none => fallback

/-- The fallback clue `[WORD]` built by the generators' f-strings. -/
def bracketed (w : List Char) : String :=
  "[" ++ String.mk w ++ "]"

/-- The oracle for the `random` module: `choice k n` is the index the `k`-th
random call draws from a list of length `n` (read modulo the length, so every
valid index is reachable and only valid indices are read), and `shuffle k l`
is the list `random.shuffle` leaves behind at call `k`. -/
structure RandSrc where
  choice : Nat → Nat → Nat
  shuffle : Nat → List Word → List Word

/-- `random.choice`: an `IndexError` on an empty list, otherwise the element
at the oracle's index together with the advanced counter. -/
def randChoice {α : Type} (rnd : RandSrc) (ctr : Nat) : List α → Except Unit (α × Nat)
  | [] => .error ()
  | x :: xs => .ok ((x :: xs).getD (rnd.choice ctr (xs.length + 1) % (xs.length + 1)) x, ctr + 1)

/-- The constructor parameters of `CrosswordGenerator`. -/
structure GenParams where
  target_words : Nat
  min_word_length : Nat
  max_word_length : Nat
  grid_size : Nat
  max_attempts : Nat

/-- The `candidates`/`available` computation at the top of
`CrosswordGenerator.generate`: all words with clues unless fewer than the
target, then the length-range filter. -/
def availableWords (p : GenParams) (wl : List Word) : List Word :=
  let candidates := if (filter_with_clues wl).length < p.target_words then wl
    else filter_with_clues wl
  candidates.filter fun w =>
    p.min_word_length ≤ w.word.length ∧ w.word.length ≤ p.max_word_length

/-- The inner `for row, col, direction, _ in positions[:5]` loop shared by
`_try_place_intersecting_word` and `_place_next_word`: try each start until
`place_word` returns a record.  A failed `place_word` leaves the grid as it
was, so the next try reads the same grid. -/
def tryPositions (g : Grid) (word : List Char) (clue : String) :
    List (Int × Int × Direction × Nat) → Except Unit (Option (PlacedWord × Grid))
  | [] => .ok none
  | q :: rest =>
    match g.place_word word clue q.1 q.2.1 q.2.2.1 with
    | none => .error ()
    | some (some pw, g') => .ok (some (pw, g'))
    | some (none, _) => tryPositions g word clue rest

/-- `positions.sort(key=lambda x: -x[3])`: a stable sort putting larger
overlap counts first. -/
def sortPositions (ps : List (Int × Int × Direction × Nat)) :
    List (Int × Int × Direction × Nat) :=
  ps.mergeSort fun a b => b.2.2.2 ≤ a.2.2.2

/-- The `for word_obj in candidates` loop of
`CrosswordGenerator._try_place_intersecting_word`: uppercase the word, look
for intersection positions, and when there are any try the five best. -/
def tpiGo (g : Grid) : List Word → Except Unit (Option PlacedWord × Grid)
  | [] => .ok (none, g)
  | w :: rest =>
    let word := w.word.map Char.toUpper
    let positions := g.find_intersections word
    if positions.isEmpty then tpiGo g rest
    else
      match tryPositions g word (clueOr w.clue (bracketed word))
          ((sortPositions positions).take 5) with
      | .error _ => .error ()
      | .ok (some (pw, g')) => .ok (some pw, g')
      | .ok none => tpiGo g rest

/-- `CrosswordGenerator._try_place_intersecting_word`: drop used words,
shuffle, then walk the candidates. -/
def tryPlaceIntersecting (rnd : RandSrc) (g : Grid) (available : List Word)
    (used : List (List Char)) (ctr : Nat) :
    Except Unit (Option PlacedWord × Grid × Nat) :=
  let candidates := available.filter fun w => ¬ (w.word.map Char.toUpper) ∈ used
  match tpiGo g (rnd.shuffle ctr candidates) with
  | .error _ => .error ()
  | .ok (res, g') => .ok (res, g', ctr + 1)

/-- A `place_word` call that returned a record appended exactly one placed
word and kept the grid's extents. -/
theorem place_word_some_facts {g g' : Grid} {pw : PlacedWord} {word : List Char}
    {clue : String} {row col : Int} {d : Direction}
    (h : g.place_word word clue row col d = some (some pw, g')) :
    g'.placed_words.length = g.placed_words.length + 1 ∧
    g'.rows = g.rows ∧ g'.cols = g.cols := by
  rcases place_word_inversion h with ⟨hres, _⟩ |
    ⟨pw2, cell0, hres, _, _, _, hrows, hcols, hplaced, _⟩
  · exact Option.noConfusion hres
  · refine ⟨?_, hrows, hcols⟩
    rw [hplaced, List.length_append]
    rfl

/-- A `place_word` call that returned the failure marker left the grid
unchanged. -/
theorem place_word_none_eq {g g' : Grid} {word : List Char} {clue : String}
    {row col : Int} {d : Direction}
    (h : g.place_word word clue row col d = some (none, g')) : g' = g := by
  rcases place_word_inversion h with ⟨_, hg⟩ | ⟨pw2, _, hres, _⟩
  · exact hg
  · exact Option.noConfusion hres

theorem tryPositions_some {g : Grid} {word : List Char} {clue : String}
    {ps : List (Int × Int × Direction × Nat)} {pw : PlacedWord} {g' : Grid}
    (h : tryPositions g word clue ps = .ok (some (pw, g'))) :
    g'.placed_words.length = g.placed_words.length + 1 ∧
    g'.rows = g.rows ∧ g'.cols = g.cols := by
  induction ps with
  | nil => simp [tryPositions] at h
  | cons q rest ih =>
    rw [tryPositions] at h
    rcases hpl : g.place_word word clue q.1 q.2.1 q.2.2.1 with _ | ⟨res, g2⟩
    · rw [hpl] at h
      simp at h
    · rcases res with _ | pw2
      · rw [hpl] at h
        exact ih h
      · rw [hpl] at h
        simp only [Except.ok.injEq, Option.some.injEq, Prod.mk.injEq] at h
        obtain ⟨-, hg⟩ := h
        subst hg
        exact place_word_some_facts hpl

theorem tpiGo_some {g : Grid} {cs : List Word} {pw : PlacedWord} {g' : Grid}
    (h : tpiGo g cs = .ok (some pw, g')) :
    g'.placed_words.length = g.placed_words.length + 1 ∧
    g'.rows = g.rows ∧ g'.cols = g.cols := by
  induction cs with
  | nil => simp [tpiGo] at h
  | cons w rest ih =>
    rw [tpiGo] at h
    by_cases hemp : (g.find_intersections (w.word.map Char.toUpper)).isEmpty
    · rw [if_pos hemp] at h
      exact ih h
    · rw [if_neg hemp] at h
      rcases htp : tryPositions g (w.word.map Char.toUpper)
          (clueOr w.clue (bracketed (w.word.map Char.toUpper)))
          ((sortPositions (g.find_intersections (w.word.map Char.toUpper))).take 5) with
        _ | opt
      · rw [htp] at h
        simp at h
      · rcases opt with _ | ⟨pw2, g2⟩
        · rw [htp] at h
          exact ih h
        · rw [htp] at h
          simp only [Except.ok.injEq, Prod.mk.injEq, Option.some.injEq] at h
          obtain ⟨hpw, hg⟩ := h
          subst hg
          exact tryPositions_some htp

theorem tpiGo_none {g : Grid} {cs : List Word} {g' : Grid}
    (h : tpiGo g cs = .ok (none, g')) : g' = g := by
  induction cs with
  | nil =>
    simp only [tpiGo, Except.ok.injEq, Prod.mk.injEq] at h
    exact h.2.symm
  | cons w rest ih =>
    rw [tpiGo] at h
    by_cases hemp : (g.find_intersections (w.word.map Char.toUpper)).isEmpty
    · rw [if_pos hemp] at h
      exact ih h
    · rw [if_neg hemp] at h
      rcases htp : tryPositions g (w.word.map Char.toUpper)
          (clueOr w.clue (bracketed (w.word.map Char.toUpper)))
          ((sortPositions (g.find_intersections (w.word.map Char.toUpper))).take 5) with
        _ | opt
      · rw [htp] at h
        simp at h
      · rcases opt with _ | ⟨pw2, g2⟩
        · rw [htp] at h
          exact ih h
        · rw [htp] at h
          simp at h

theorem tpi_some_facts {rnd : RandSrc} {g : Grid} {available : List Word}
    {used : List (List Char)} {ctr : Nat} {pw : PlacedWord} {g' : Grid} {ctr' : Nat}
    (h : tryPlaceIntersecting rnd g available used ctr = .ok (some pw, g', ctr')) :
    g'.placed_words.length = g.placed_words.length + 1 ∧
    g'.rows = g.rows ∧ g'.cols = g.cols := by
  unfold tryPlaceIntersecting at h
  dsimp only at h
  rcases hgo : tpiGo g (rnd.shuffle ctr (available.filter fun w =>
      ¬ (w.word.map Char.toUpper) ∈ used)) with _ | ⟨res, g2⟩
  · rw [hgo] at h
    simp at h
  · rw [hgo] at h
    simp only [Except.ok.injEq, Prod.mk.injEq] at h
    obtain ⟨hres, hg, -⟩ := h
    subst hres
    subst hg
    exact tpiGo_some hgo

theorem tpi_none_eq {rnd : RandSrc} {g : Grid} {available : List Word}
    {used : List (List Char)} {ctr : Nat} {g' : Grid} {ctr' : Nat}
    (h : tryPlaceIntersecting rnd g available used ctr = .ok (none, g', ctr')) :
    g' = g := by
  unfold tryPlaceIntersecting at h
  dsimp only at h
  rcases hgo : tpiGo g (rnd.shuffle ctr (available.filter fun w =>
      ¬ (w.word.map Char.toUpper) ∈ used)) with _ | ⟨res, g2⟩
  · rw [hgo] at h
    simp at h
  · rw [hgo] at h
    simp only [Except.ok.injEq, Prod.mk.injEq] at h
    obtain ⟨hres, hg, -⟩ := h
    subst hres
    subst hg
    exact tpiGo_none hgo

/-- The `while len(grid.placed_words) < target and attempts_without_progress
< max_stuck` loop of `CrosswordGenerator._try_generate` (`max_stuck = 20`). -/
def fillLoop (rnd : RandSrc) (target : Nat) (available : List Word)
    (g : Grid) (used : List (List Char)) (stuck ctr : Nat) : Except Unit (Grid × Nat) :=
  if h : g.placed_words.length < target ∧ stuck < 20 then
    match hres : tryPlaceIntersecting rnd g available used ctr with
    | .error _ => .error ()
    | .ok (some pw, g', ctr') =>
      fillLoop rnd target available g' (pw.word.map Char.toUpper :: used) 0 ctr'
    | .ok (none, g', ctr') => fillLoop rnd target available g' used (stuck + 1) ctr'
  else .ok (g, ctr)
termination_by (target - g.placed_words.length) * 21 + (20 - stuck)
decreasing_by
  · have hlen := (tpi_some_facts hres).1
    omega
  · have heq := tpi_none_eq hres
    subst heq
    omega

/-- When its guard fails, the fill loop returns the grid as given. -/
theorem fillLoop_exit (rnd : RandSrc) (target : Nat) (available : List Word)
    (g : Grid) (used : List (List Char)) (stuck ctr : Nat)
    (h : ¬(g.placed_words.length < target ∧ stuck < 20)) :
    fillLoop rnd target available g used stuck ctr = .ok (g, ctr) := by
  rw [fillLoop.eq_def]
  exact dif_neg h

/-- The random-seed branch of `_try_generate`: words of length 5–8, falling
back to all available words, then `random.choice`. -/
def pickSeed (rnd : RandSrc) (available : List Word) (ctr : Nat) :
    Except Unit (Word × Nat) :=
  let good_seeds := available.filter fun w => 5 ≤ w.word.length ∧ w.word.length ≤ 8
  randChoice rnd ctr (if good_seeds.isEmpty then available else good_seeds)

/-- Seed selection in `_try_generate`: Python's `if seed_word:` takes the
case-insensitive lookup branch only for a truthy (non-empty) string, and the
lookup's miss is `none`. -/
def selectSeed (rnd : RandSrc) (available : List Word) (seed_word : Option String)
    (ctr : Nat) : Except Unit (Option Word × Nat) :=
  match seed_word with
  | some s =>
    if s = "" then (pickSeed rnd available ctr).map fun wc => (some wc.1, wc.2)
    else .ok (available.find? fun w =>
      w.word.map Char.toUpper = s.data.map Char.toUpper, ctr)
  | none => (pickSeed rnd available ctr).map fun wc => (some wc.1, wc.2)

/-- `CrosswordGenerator._try_generate`: a fresh square grid, the seed choice,
its centered placement (whose record the source discards), then the fill
loop. -/
def tryGenerate (p : GenParams) (available : List Word) (seed_word : Option String)
    (rnd : RandSrc) (ctr : Nat) : Except Unit (Option Grid × Nat) :=
  match selectSeed rnd available seed_word ctr with
  | .error _ => .error ()
  | .ok (none, ctr') => .ok (none, ctr')
  | .ok (some seed, ctr') =>
    let center : Int := (p.grid_size / 2 : Nat)
    let start_col : Int := center - ((seed.word.length / 2 : Nat) : Int)
    match (Grid.init p.grid_size p.grid_size).place_word seed.word
        (clueOr seed.clue (bracketed seed.word)) center start_col .ACROSS with
    | none => .error ()
    | some (_, g1) =>
      match fillLoop rnd p.target_words available g1 [seed.word.map Char.toUpper] 0 ctr' with
      | .error _ => .error ()
      | .ok (g2, ctr'') => .ok (some g2, ctr'')

/-- The `for attempt in range(max_attempts)` loop of
`CrosswordGenerator.generate`, with its best-so-far tracking; a grid reaching
the target is compacted and returned at once, and exhausted attempts return
the compacted best, if any. -/
def genLoop (p : GenParams) (available : List Word) (seed_word : Option String)
    (rnd : RandSrc) : Nat → Option Grid → Nat → Nat → Except Unit (Option Grid)
  | 0, best, _, _ => .ok (best.map Grid.compact)
  | fuel + 1, best, best_count, ctr =>
    match tryGenerate p available seed_word rnd ctr with
    | .error _ => .error ()
    | .ok (none, ctr') => genLoop p available seed_word rnd fuel best best_count ctr'
    | .ok (some g, ctr') =>
      if p.target_words ≤ g.placed_words.length then .ok (some g.compact)
      else if best_count < g.placed_words.length then
        genLoop p available seed_word rnd fuel (some g) g.placed_words.length ctr'
      else genLoop p available seed_word rnd fuel best best_count ctr'

/-- `CrosswordGenerator.generate` from `src/generator.py`: `ok none` is the
source's `None` (including the too-few-words early return), and `error` an
uncaught exception of a random draw or placement. -/
def generate (p : GenParams) (wl : List Word) (seed_word : Option String)
    (rnd : RandSrc) : Except Unit (Option Grid) :=
  let available := availableWords p wl
  if available.length < p.target_words then .ok none
  else genLoop p available seed_word rnd p.max_attempts none 0 0

/-! ## The strict 5x5 generator (`Grid5x5Generator`) -/

/-- `Grid5x5Generator.BLACK_PATTERNS`. -/
def BLACK_PATTERNS : List (List (Nat × Nat)) :=
  [[(0, 4)], [(0, 4), (4, 0)], [(0, 4), (4, 0)], [(0, 4), (1, 4)],
   [(2, 2)], [], [(0, 4), (1, 3)], [(2, 4), (2, 0)]]

/-- `Grid5x5Generator._filter_for_5x5`: only words of two to five letters. -/
def filterFor5x5 (wl : List Word) : List Word :=
  wl.filter fun w => 2 ≤ w.word.length ∧ w.word.length ≤ 5

/-- The constructor parameters of `Grid5x5Generator` (its
`require_islamic_majority` flag is never read). -/
structure Gen5Params where
  target_words : Nat
  max_attempts : Nat

/-- The black-square application of the 5x5 `_try_generate`: each pattern
entry and its 180-degree mirror `(4 - row, 4 - col)`. -/
def applyPattern (g : Grid) (pattern : List (Nat × Nat)) : Grid :=
  pattern.foldl (fun gAcc rc =>
    (gAcc.set_black (rc.1 : Int) (rc.2 : Int)).set_black
      ((4 : Int) - (rc.1 : Int)) ((4 : Int) - (rc.2 : Int))) g

/-- The random-seed branch of the 5x5 `_try_generate`: a five-letter word,
else a four-letter word, else any available word. -/
def pick5 (rnd : RandSrc) (available : List Word) (ctr : Nat) :
    Except Unit (Option Word × Nat) :=
  let five_letter := available.filter fun w => w.word.length = 5
  if five_letter.isEmpty then
    let four_letter := available.filter fun w => w.word.length = 4
    if four_letter.isEmpty then
      (randChoice rnd ctr available).map fun wc => (some wc.1, wc.2)
    else (randChoice rnd ctr four_letter).map fun wc => (some wc.1, wc.2)
  else (randChoice rnd ctr five_letter).map fun wc => (some wc.1, wc.2)

/-- Seed selection in the 5x5 `_try_generate`: a truthy explicit seed is
uppercased, truncated to five characters and looked up; otherwise a random
pick. -/
def selectSeed5 (rnd : RandSrc) (available : List Word) (seed_word : Option String)
    (ctr : Nat) : Except Unit (Option Word × Nat) :=
  match seed_word with
  | some s =>
    if s = "" then pick5 rnd available ctr
    else
      let su := (s.data.map Char.toUpper).take 5
      .ok (available.find? fun w => w.word.map Char.toUpper = su, ctr)
  | none => pick5 rnd available ctr

/-- The `for col in range(5 - len(seed.word) + 1)` retry loop of the 5x5
`_try_generate`: place the seed across in row 0 at each column in turn. -/
def trySeedCols (g : Grid) (word : List Char) (clue : String) :
    List Nat → Except Unit (Option (PlacedWord × Grid))
  | [] => .ok none
  | col :: rest =>
    match g.place_word word clue 0 (col : Int) .ACROSS with
    | none => .error ()
    | some (some pw, g') => .ok (some (pw, g'))
    | some (none, _) => trySeedCols g word clue rest

/-- `Grid5x5Generator._fits_in_grid`. -/
def fitsInGrid (word : List Char) (row col : Int) (d : Direction) : Bool :=
  match d with
  | .ACROSS => 0 ≤ row ∧ row < 5 ∧ 0 ≤ col ∧ col + (word.length : Int) ≤ 5
  | .DOWN => 0 ≤ col ∧ col < 5 ∧ 0 ≤ row ∧ row + (word.length : Int) ≤ 5

/-- The `for word_obj in candidates` loop of `Grid5x5Generator._place_next_word`:
like the freeform loop, but only positions that fit the 5x5 box are tried. -/
def pnw5Go (g : Grid) : List Word → Except Unit (Option PlacedWord × Grid)
  | [] => .ok (none, g)
  | w :: rest =>
    let word := w.word.map Char.toUpper
    let positions := g.find_intersections word
    if positions.isEmpty then pnw5Go g rest
    else
      let valid := positions.filter fun q => fitsInGrid word q.1 q.2.1 q.2.2.1
      if valid.isEmpty then pnw5Go g rest
      else
        match tryPositions g word (clueOr w.clue (bracketed word))
            ((sortPositions valid).take 5) with
        | .error _ => .error ()
        | .ok (some (pw, g')) => .ok (some pw, g')
        | .ok none => pnw5Go g rest

/-- `Grid5x5Generator._place_next_word`. -/
def placeNextWord5 (rnd : RandSrc) (g : Grid) (available : List Word)
    (used : List (List Char)) (ctr : Nat) :
    Except Unit (Option PlacedWord × Grid × Nat) :=
  let candidates := available.filter fun w => ¬ (w.word.map Char.toUpper) ∈ used
  match pnw5Go g (rnd.shuffle ctr candidates) with
  | .error _ => .error ()
  | .ok (res, g') => .ok (res, g', ctr + 1)

theorem pnw5Go_some {g : Grid} {cs : List Word} {pw : PlacedWord} {g' : Grid}
    (h : pnw5Go g cs = .ok (some pw, g')) :
    g'.placed_words.length = g.placed_words.length + 1 ∧
    g'.rows = g.rows ∧ g'.cols = g.cols := by
  induction cs with
  | nil => simp [pnw5Go] at h
  | cons w rest ih =>
    rw [pnw5Go] at h
    by_cases hemp : (g.find_intersections (w.word.map Char.toUpper)).isEmpty
    · rw [if_pos hemp] at h
      exact ih h
    · rw [if_neg hemp] at h
      by_cases hval : ((g.find_intersections (w.word.map Char.toUpper)).filter fun q =>
          fitsInGrid (w.word.map Char.toUpper) q.1 q.2.1 q.2.2.1).isEmpty
      · rw [if_pos hval] at h
        exact ih h
      · rw [if_neg hval] at h
        rcases htp : tryPositions g (w.word.map Char.toUpper)
            (clueOr w.clue (bracketed (w.word.map Char.toUpper)))
            ((sortPositions ((g.find_intersections (w.word.map Char.toUpper)).filter fun q =>
              fitsInGrid (w.word.map Char.toUpper) q.1 q.2.1 q.2.2.1)).take 5) with
          _ | opt
        · rw [htp] at h
          simp at h
        · rcases opt with _ | ⟨pw2, g2⟩
          · rw [htp] at h
            exact ih h
          · rw [htp] at h
            simp only [Except.ok.injEq, Prod.mk.injEq, Option.some.injEq] at h
            obtain ⟨hpw, hg⟩ := h
            subst hg
            exact tryPositions_some htp

theorem pnw5Go_none {g : Grid} {cs : List Word} {g' : Grid}
    (h : pnw5Go g cs = .ok (none, g')) : g' = g := by
  induction cs with
  | nil =>
    simp only [pnw5Go, Except.ok.injEq, Prod.mk.injEq] at h
    exact h.2.symm
  | cons w rest ih =>
    rw [pnw5Go] at h
    by_cases hemp : (g.find_intersections (w.word.map Char.toUpper)).isEmpty
    · rw [if_pos hemp] at h
      exact ih h
    · rw [if_neg hemp] at h
      by_cases hval : ((g.find_intersections (w.word.map Char.toUpper)).filter fun q =>
          fitsInGrid (w.word.map Char.toUpper) q.1 q.2.1 q.2.2.1).isEmpty
      · rw [if_pos hval] at h
        exact ih h
      · rw [if_neg hval] at h
        rcases htp : tryPositions g (w.word.map Char.toUpper)
            (clueOr w.clue (bracketed (w.word.map Char.toUpper)))
            ((sortPositions ((g.find_intersections (w.word.map Char.toUpper)).filter fun q =>
              fitsInGrid (w.word.map Char.toUpper) q.1 q.2.1 q.2.2.1)).take 5) with
          _ | opt
        · rw [htp] at h
          simp at h
        · rcases opt with _ | ⟨pw2, g2⟩
          · rw [htp] at h
            exact ih h
          · rw [htp] at h
            simp at h

theorem pnw5_some_facts {rnd : RandSrc} {g : Grid} {available : List Word}
    {used : List (List Char)} {ctr : Nat} {pw : PlacedWord} {g' : Grid} {ctr' : Nat}
    (h : placeNextWord5 rnd g available used ctr = .ok (some pw, g', ctr')) :
    g'.placed_words.length = g.placed_words.length + 1 ∧
    g'.rows = g.rows ∧ g'.cols = g.cols := by
  unfold placeNextWord5 at h
  dsimp only at h
  rcases hgo : pnw5Go g (rnd.shuffle ctr (available.filter fun w =>
      ¬ (w.word.map Char.toUpper) ∈ used)) with _ | ⟨res, g2⟩
  · rw [hgo] at h
    simp at h
  · rw [hgo] at h
    simp only [Except.ok.injEq, Prod.mk.injEq] at h
    obtain ⟨hres, hg, -⟩ := h
    subst hres
    subst hg
    exact pnw5Go_some hgo

theorem pnw5_none_eq {rnd : RandSrc} {g : Grid} {available : List Word}
    {used : List (List Char)} {ctr : Nat} {g' : Grid} {ctr' : Nat}
    (h : placeNextWord5 rnd g available used ctr = .ok (none, g', ctr')) :
    g' = g := by
  unfold placeNextWord5 at h
  dsimp only at h
  rcases hgo : pnw5Go g (rnd.shuffle ctr (available.filter fun w =>
      ¬ (w.word.map Char.toUpper) ∈ used)) with _ | ⟨res, g2⟩
  · rw [hgo] at h
    simp at h
  · rw [hgo] at h
    simp only [Except.ok.injEq, Prod.mk.injEq] at h
    obtain ⟨hres, hg, -⟩ := h
    subst hres
    subst hg
    exact pnw5Go_none hgo

/-- The `while len(grid.placed_words) < target and stuck_count < max_stuck`
loop of the 5x5 `_try_generate` (`max_stuck = 30`). -/
def fillLoop5 (rnd : RandSrc) (target : Nat) (available : List Word)
    (g : Grid) (used : List (List Char)) (stuck ctr : Nat) : Except Unit (Grid × Nat) :=
  if h : g.placed_words.length < target ∧ stuck < 30 then
    match hres : placeNextWord5 rnd g available used ctr with
    | .error _ => .error ()
    | .ok (some pw, g', ctr') =>
      fillLoop5 rnd target available g' (pw.word.map Char.toUpper :: used) 0 ctr'
    | .ok (none, g', ctr') => fillLoop5 rnd target available g' used (stuck + 1) ctr'
  else .ok (g, ctr)
termination_by (target - g.placed_words.length) * 31 + (30 - stuck)
decreasing_by
  · have hlen := (pnw5_some_facts hres).1
    omega
  · have heq := pnw5_none_eq hres
    subst heq
    omega

/-- When its guard fails, the 5x5 fill loop returns the grid as given. -/
theorem fillLoop5_exit (rnd : RandSrc) (target : Nat) (available : List Word)
    (g : Grid) (used : List (List Char)) (stuck ctr : Nat)
    (h : ¬(g.placed_words.length < target ∧ stuck < 30)) :
    fillLoop5 rnd target available g used stuck ctr = .ok (g, ctr) := by
  rw [fillLoop5.eq_def]
  exact dif_neg h

/-- `Grid5x5Generator._count_intersections`: coordinates covered by more than
one placed word. -/
def countIntersections (g : Grid) : Nat :=
  let coords := g.placed_words.flatMap PlacedWord.get_cells
  coords.dedup.countP fun c => 1 < coords.count c

/-- `Grid5x5Generator._score_grid`.  The source computes the density and
balance terms through Python floats (`int(filled / 25 * 20)` and
`int(min / max * 10)`); they are embedded as the integer divisions
`filled * 20 / 25` and `min * 10 / max`, which take the same values on the
counts a 5x5 grid can produce; no theorem below depends on the scores'
numeric values, only on the control flow around them. -/
def scoreGrid (g : Grid) : Nat :=
  let wordScore := min (g.placed_words.length * 6) 40
  let interScore := min (countIntersections g * 5) 30
  let filled := (g.coordList.filter fun rc =>
    (g.content rc.1 rc.2).letter.isSome ∧ rc.1 < 5 ∧ rc.2 < 5).length
  let fillScore := filled * 20 / 25
  let across := g.get_across_words.length
  let down := g.get_down_words.length
  let balScore := if 0 < across ∧ 0 < down then
    (min across down) * 10 / (max across down) else 0
  wordScore + interScore + fillScore + balScore

/-- The black-pattern choice at the top of each 5x5 attempt: a caller-given
index is reduced modulo the pattern count (Python's `%` on a possibly
negative index), otherwise `random.choice`. -/
def pickPattern (black_pattern : Option Int) (rnd : RandSrc) (ctr : Nat) :
    Except Unit (List (Nat × Nat) × Nat) :=
  match black_pattern with
  | some idx => .ok (BLACK_PATTERNS.getD (idx % (BLACK_PATTERNS.length : Int)).toNat [], ctr)
  | none => randChoice rnd ctr BLACK_PATTERNS

/-- The tail of the 5x5 `_try_generate` after the seed is in place: the fill
loop, then `grid if len(grid.placed_words) >= 3 else None`. -/
def fill5From (p : Gen5Params) (available : List Word) (rnd : RandSrc) (seed : Word)
    (g1 : Grid) (ctr : Nat) : Except Unit (Option Grid × Nat) :=
  match fillLoop5 rnd p.target_words available g1 [seed.word.map Char.toUpper] 0 ctr with
  | .error _ => .error ()
  | .ok (g2, ctr') => .ok (if 3 ≤ g2.placed_words.length then some g2 else none, ctr')

/-- The 5x5 `_try_generate`: pattern blacks, seed choice, first-row placement
with column retries, the fill loop, then the three-word threshold. -/
def tryGenerate5 (p : Gen5Params) (available : List Word) (seed_word : Option String)
    (pattern : List (Nat × Nat)) (rnd : RandSrc) (ctr : Nat) :
    Except Unit (Option Grid × Nat) :=
  let g := applyPattern (Grid.init 5 5) pattern
  match selectSeed5 rnd available seed_word ctr with
  | .error _ => .error ()
  | .ok (none, ctr') => .ok (none, ctr')
  | .ok (some seed, ctr') =>
    let clue := clueOr seed.clue (bracketed seed.word)
    match g.place_word seed.word clue 0 0 .ACROSS with
    | none => .error ()
    | some (some _, g1) => fill5From p available rnd seed g1 ctr'
    | some (none, _) =>
      match trySeedCols g seed.word clue
          (List.range ((5 : Int) - (seed.word.length : Int) + 1).toNat) with
      | .error _ => .error ()
      | .ok none => .ok (none, ctr')
      | .ok (some (_, g1)) => fill5From p available rnd seed g1 ctr'

/-- The attempt loop of `Grid5x5Generator.generate`: score-based best
tracking, a `target - 1` consolation branch, and the early break at
score 80. -/
def gen5Loop (p : Gen5Params) (available : List Word) (seed_word : Option String)
    (black_pattern : Option Int) (rnd : RandSrc) :
    Nat → Option Grid → Nat → Nat → Except Unit (Option Grid)
  | 0, best, _, _ => .ok best
  | fuel + 1, best, best_score, ctr =>
    match pickPattern black_pattern rnd ctr with
    | .error _ => .error ()
    | .ok (pattern, ctr') =>
      match tryGenerate5 p available seed_word pattern rnd ctr' with
      | .error _ => .error ()
      | .ok (none, ctr'') =>
        gen5Loop p available seed_word black_pattern rnd fuel best best_score ctr''
      | .ok (some g, ctr'') =>
        let score := scoreGrid g
        if p.target_words ≤ g.placed_words.length ∧ best_score < score then
          if 80 ≤ score then .ok (some g)
          else gen5Loop p available seed_word black_pattern rnd fuel (some g) score ctr''
        else if (p.target_words : Int) - 1 ≤ (g.placed_words.length : Int) ∧
            best_score < score then
          gen5Loop p available seed_word black_pattern rnd fuel (some g) score ctr''
        else gen5Loop p available seed_word black_pattern rnd fuel best best_score ctr''

/-- `Grid5x5Generator.generate` from `src/generator.py`, with the
constructor's 5x5 length filtering folded in (the source applies it when the
generator is built). -/
def generate5 (p : Gen5Params) (wl : List Word) (seed_word : Option String)
    (black_pattern : Option Int) (rnd : RandSrc) : Except Unit (Option Grid) :=
  let wl5 := filterFor5x5 wl
  let candidates := if (filter_with_clues wl5).length < p.target_words then wl5
    else filter_with_clues wl5
  if candidates.length < p.target_words then .ok none
  else gen5Loop p candidates seed_word black_pattern rnd p.max_attempts none 0 0

/-! ## Claim C6: the shape of generator outputs -/

/-- Every grid the freeform attempt loop hands out is the compaction of some
grid: both its return sites apply `compact`. -/
theorem genLoop_compact {p : GenParams} {available : List Word} {sw : Option String}
    {rnd : RandSrc} :
    ∀ (fuel : Nat) (best : Option Grid) (bc ctr : Nat) (h : Grid),
    genLoop p available sw rnd fuel best bc ctr = .ok (some h) →
    ∃ g : Grid, h = g.compact := by
  intro fuel
  induction fuel with
  | zero =>
    intro best bc ctr h hh
    simp only [genLoop] at hh
    rcases best with _ | b
    · simp at hh
    · refine ⟨b, ?_⟩
      rw [show Option.map Grid.compact (some b) = some b.compact from rfl] at hh
      rw [Except.ok.injEq, Option.some.injEq] at hh
      exact hh.symm
  | succ n ih =>
    intro best bc ctr h hh
    rw [genLoop] at hh
    rcases htg : tryGenerate p available sw rnd ctr with _ | ⟨og, c⟩
    · rw [htg] at hh
      simp at hh
    · rcases og with _ | g
      · rw [htg] at hh
        exact ih best bc c h hh
      · simp only [htg] at hh
        by_cases h1 : p.target_words ≤ g.placed_words.length
        · rw [if_pos h1] at hh
          simp only [Except.ok.injEq, Option.some.injEq] at hh
          exact ⟨g, hh.symm⟩
        · rw [if_neg h1] at hh
          by_cases h2 : bc < g.placed_words.length
          · rw [if_pos h2] at hh
            exact ih _ _ _ _ hh
          · rw [if_neg h2] at hh
            exact ih _ _ _ _ hh

/-- `set_black` keeps the grid's extents. -/
theorem set_black_rows (g : Grid) (row col : Int) :
    (g.set_black row col).rows = g.rows := by
  unfold Grid.set_black
  split
  · rfl
  · rfl

theorem set_black_cols (g : Grid) (row col : Int) :
    (g.set_black row col).cols = g.cols := by
  unfold Grid.set_black
  split
  · rfl
  · rfl

theorem applyPattern_dims (pattern : List (Nat × Nat)) (g : Grid) :
    (applyPattern g pattern).rows = g.rows ∧ (applyPattern g pattern).cols = g.cols := by
  induction pattern generalizing g with
  | nil => exact ⟨rfl, rfl⟩
  | cons rc rest ih =>
    have hstep : applyPattern g (rc :: rest) =
        applyPattern ((g.set_black (rc.1 : Int) (rc.2 : Int)).set_black
          ((4 : Int) - (rc.1 : Int)) ((4 : Int) - (rc.2 : Int))) rest := by
      simp only [applyPattern, List.foldl_cons]
    rw [hstep]
    obtain ⟨h1, h2⟩ := ih ((g.set_black (rc.1 : Int) (rc.2 : Int)).set_black
      ((4 : Int) - (rc.1 : Int)) ((4 : Int) - (rc.2 : Int)))
    constructor
    · rw [h1, set_black_rows, set_black_rows]
    · rw [h2, set_black_cols, set_black_cols]

theorem trySeedCols_some {g : Grid} {word : List Char} {clue : String}
    {cols : List Nat} {pw : PlacedWord} {g' : Grid}
    (h : trySeedCols g word clue cols = .ok (some (pw, g'))) :
    g'.rows = g.rows ∧ g'.cols = g.cols := by
  induction cols with
  | nil => simp [trySeedCols] at h
  | cons col rest ih =>
    rw [trySeedCols] at h
    rcases hpl : g.place_word word clue 0 (col : Int) .ACROSS with _ | ⟨res, g2⟩
    · rw [hpl] at h
      simp at h
    · rcases res with _ | pw2
      · rw [hpl] at h
        exact ih h
      · rw [hpl] at h
        simp only [Except.ok.injEq, Option.some.injEq, Prod.mk.injEq] at h
        obtain ⟨-, hg⟩ := h
        subst hg
        exact (place_word_some_facts hpl).2

/-- Unfolding of one guarded step of the 5x5 fill loop, with the source's
`match` freed of its recursion-measure bookkeeping. -/
theorem fillLoop5_step (rnd : RandSrc) (target : Nat) (available : List Word)
    (g : Grid) (used : List (List Char)) (stuck ctr : Nat)
    (h : g.placed_words.length < target ∧ stuck < 30) :
    fillLoop5 rnd target available g used stuck ctr =
      match placeNextWord5 rnd g available used ctr with
      | .error _ => .error ()
      | .ok (some pw, g', ctr') =>
        fillLoop5 rnd target available g' (pw.word.map Char.toUpper :: used) 0 ctr'
      | .ok (none, g', ctr') => fillLoop5 rnd target available g' used (stuck + 1) ctr' := by
  rw [fillLoop5.eq_def]
  simp only [dif_pos h]
  split
  · rename_i a heq
    rw [heq]
  · rename_i pw g' ctr' heq
    rw [heq]
  · rename_i g' ctr' heq
    rw [heq]

/-- The 5x5 fill loop keeps the grid's extents (by strong induction on its
termination measure). -/
theorem fillLoop5_dims {rnd : RandSrc} {target : Nat} {available : List Word} :
    ∀ (m : Nat) (g : Grid) (used : List (List Char)) (stuck ctr : Nat)
      (g2 : Grid) (c2 : Nat),
    (target - g.placed_words.length) * 31 + (30 - stuck) ≤ m →
    fillLoop5 rnd target available g used stuck ctr = .ok (g2, c2) →
    g2.rows = g.rows ∧ g2.cols = g.cols := by
  intro m
  induction m with
  | zero =>
    intro g used stuck ctr g2 c2 hm h
    rw [fillLoop5_exit rnd target available g used stuck ctr (by omega)] at h
    simp only [Except.ok.injEq, Prod.mk.injEq] at h
    rw [← h.1]
    exact ⟨rfl, rfl⟩
  | succ m ih =>
    intro g used stuck ctr g2 c2 hm h
    by_cases hg : g.placed_words.length < target ∧ stuck < 30
    · rw [fillLoop5_step rnd target available g used stuck ctr hg] at h
      rcases hres : placeNextWord5 rnd g available used ctr with _ | ⟨res, g', ctr'⟩
      · rw [hres] at h
        simp at h
      · rcases res with _ | pw
        · rw [hres] at h
          rw [pnw5_none_eq hres] at h
          exact ih g used (stuck + 1) ctr' g2 c2 (by omega) h
        · rw [hres] at h
          obtain ⟨hlen, hr, hc⟩ := pnw5_some_facts hres
          obtain ⟨h1, h2⟩ := ih g' (pw.word.map Char.toUpper :: used) 0 ctr' g2 c2
            (by omega) h
          exact ⟨h1.trans hr, h2.trans hc⟩
    · rw [fillLoop5_exit rnd target available g used stuck ctr hg] at h
      simp only [Except.ok.injEq, Prod.mk.injEq] at h
      rw [← h.1]
      exact ⟨rfl, rfl⟩

theorem fill5From_dims {p : Gen5Params} {available : List Word} {rnd : RandSrc}
    {seed : Word} {g1 : Grid} {ctr : Nat} {h : Grid} {c : Nat}
    (hf : fill5From p available rnd seed g1 ctr = .ok (some h, c)) :
    h.rows = g1.rows ∧ h.cols = g1.cols := by
  unfold fill5From at hf
  rcases hfl : fillLoop5 rnd p.target_words available g1
      [seed.word.map Char.toUpper] 0 ctr with _ | ⟨g2, c2⟩
  · rw [hfl] at hf
    simp at hf
  · simp only [hfl] at hf
    by_cases h3 : 3 ≤ g2.placed_words.length
    · rw [if_pos h3] at hf
      simp only [Except.ok.injEq, Prod.mk.injEq, Option.some.injEq] at hf
      rw [← hf.1]
      exact fillLoop5_dims ((p.target_words - g1.placed_words.length) * 31 + 30)
        g1 [seed.word.map Char.toUpper] 0 ctr g2 c2 le_rfl hfl
    · rw [if_neg h3] at hf
      simp at hf

/-- Every grid the 5x5 attempt builder hands out is exactly 5x5. -/
theorem tryGenerate5_dims {p : Gen5Params} {available : List Word}
    {sw : Option String} {pattern : List (Nat × Nat)} {rnd : RandSrc} {ctr : Nat}
    {h : Grid} {c : Nat}
    (ht : tryGenerate5 p available sw pattern rnd ctr = .ok (some h, c)) :
    h.rows = 5 ∧ h.cols = 5 := by
  unfold tryGenerate5 at ht
  dsimp only at ht
  obtain ⟨hpr, hpc⟩ := applyPattern_dims pattern (Grid.init 5 5)
  rcases hsel : selectSeed5 rnd available sw ctr with _ | ⟨os, ctr'⟩
  · rw [hsel] at ht
    simp at ht
  · rcases os with _ | seed
    · simp only [hsel] at ht
      simp at ht
    · simp only [hsel] at ht
      rcases hpl : (applyPattern (Grid.init 5 5) pattern).place_word seed.word
          (clueOr seed.clue (bracketed seed.word)) 0 0 .ACROSS with _ | ⟨res, g1⟩
      · rw [hpl] at ht
        simp at ht
      · rcases res with _ | pw0
        · simp only [hpl] at ht
          rcases htc : trySeedCols (applyPattern (Grid.init 5 5) pattern) seed.word
              (clueOr seed.clue (bracketed seed.word))
              (List.range ((5 : Int) - (seed.word.length : Int) + 1).toNat) with
            _ | oc
          · rw [htc] at ht
            simp at ht
          · rcases oc with _ | ⟨pw1, g2⟩
            · simp only [htc] at ht
              simp at ht
            · simp only [htc] at ht
              obtain ⟨hd1, hd2⟩ := fill5From_dims ht
              obtain ⟨he1, he2⟩ := trySeedCols_some htc
              exact ⟨by rw [hd1, he1, hpr]; rfl, by rw [hd2, he2, hpc]; rfl⟩
        · simp only [hpl] at ht
          obtain ⟨hd1, hd2⟩ := fill5From_dims ht
          obtain ⟨-, he1, he2⟩ := place_word_some_facts hpl
          exact ⟨by rw [hd1, he1, hpr]; rfl, by rw [hd2, he2, hpc]; rfl⟩

/-- Every grid the 5x5 attempt loop returns is exactly 5x5. -/
theorem gen5Loop_dims {p : Gen5Params} {available : List Word} {sw : Option String}
    {bp : Option Int} {rnd : RandSrc} :
    ∀ (fuel : Nat) (best : Option Grid) (bs ctr : Nat) (h : Grid),
    (∀ b, best = some b → b.rows = 5 ∧ b.cols = 5) →
    gen5Loop p available sw bp rnd fuel best bs ctr = .ok (some h) →
    h.rows = 5 ∧ h.cols = 5 := by
  intro fuel
  induction fuel with
  | zero =>
    intro best bs ctr h hbest hh
    simp only [gen5Loop, Except.ok.injEq] at hh
    exact hbest h hh
  | succ n ih =>
    intro best bs ctr h hbest hh
    rw [gen5Loop] at hh
    rcases hpp : pickPattern bp rnd ctr with _ | ⟨pattern, ctr'⟩
    · rw [hpp] at hh
      simp at hh
    · simp only [hpp] at hh
      rcases htg : tryGenerate5 p available sw pattern rnd ctr' with _ | ⟨og, ctr''⟩
      · rw [htg] at hh
        simp at hh
      · rcases og with _ | g
        · simp only [htg] at hh
          exact ih best bs ctr'' h hbest hh
        · simp only [htg] at hh
          have hgd := tryGenerate5_dims htg
          by_cases h1 : p.target_words ≤ g.placed_words.length ∧ bs < scoreGrid g
          · rw [if_pos h1] at hh
            by_cases h2 : 80 ≤ scoreGrid g
            · rw [if_pos h2] at hh
              simp only [Except.ok.injEq, Option.some.injEq] at hh
              rw [← hh]
              exact hgd
            · rw [if_neg h2] at hh
              refine ih _ _ _ _ ?_ hh
              intro b hb
              rw [Option.some.injEq] at hb
              rw [← hb]
              exact hgd
          · rw [if_neg h1] at hh
            by_cases h3 : (p.target_words : Int) - 1 ≤ (g.placed_words.length : Int) ∧
                bs < scoreGrid g
            · rw [if_pos h3] at hh
              refine ih _ _ _ _ ?_ hh
              intro b hb
              rw [Option.some.injEq] at hb
              rw [← hb]
              exact hgd
            · rw [if_neg h3] at hh
              exact ih best bs ctr'' h hbest hh

/-- A deterministic oracle (first element, identity shuffle), used by the
concrete runs below. -/
def rndId : RandSrc :=
  { choice := fun _ _ => 0, shuffle := fun _ l => l }

/-- Parameters exercising C6: target 0, so an attempt whose seed fails to
fit still reaches the target. -/
def p6 : GenParams :=
  { target_words := 0, min_word_length := 1, max_word_length := 2,
    grid_size := 1, max_attempts := 1 }

def wl6 : List Word :=
  [{ word := ['A', 'B'], score := 50, clue := some ("c") }]

/-- C6's counterexample: the freeform generator, asked for zero words from a
1x1 grid, returns a letterless 1x1 grid whose single border row holds no
letter — so a returned grid need not have letter-bearing border rows and
columns.  (The seed `AB` is found but cannot be placed, the fill loop is
skipped as the target is already met, and the letterless grid's compaction
is the 1x1 empty grid.) -/
theorem C6_counterexample :
    ∃ h : Grid, generate p6 wl6 (some "AB") rndId = .ok (some h) ∧
      h.rows = 1 ∧ h.cols = 1 ∧ h.rowHasLetter 0 = false := by
  have hfill : fillLoop rndId 0 (availableWords p6 wl6) (Grid.init 1 1)
      [['A', 'B']] 0 0 = .ok (Grid.init 1 1, 0) :=
    fillLoop_exit _ _ _ _ _ _ _ (by decide)
  have htry : tryGenerate p6 (availableWords p6 wl6) (some "AB") rndId 0 =
      .ok (some (Grid.init 1 1), 0) := by
    have h1 : tryGenerate p6 (availableWords p6 wl6) (some "AB") rndId 0 =
        (match fillLoop rndId 0 (availableWords p6 wl6) (Grid.init 1 1)
            [['A', 'B']] 0 0 with
         | .error _ => (.error () : Except Unit (Option Grid × Nat))
         | .ok (g2, c) => .ok (some g2, c)) := rfl
    rw [h1, hfill]
  have hgen : genLoop p6 (availableWords p6 wl6) (some "AB") rndId 1 none 0 0 =
      .ok (some ((Grid.init 1 1).compact)) := by
    have h1 : genLoop p6 (availableWords p6 wl6) (some "AB") rndId 1 none 0 0 =
        (match tryGenerate p6 (availableWords p6 wl6) (some "AB") rndId 0 with
         | .error _ => (.error () : Except Unit (Option Grid))
         | .ok (none, c) =>
           genLoop p6 (availableWords p6 wl6) (some "AB") rndId 0 none 0 c
         | .ok (some g, c) =>
           if p6.target_words ≤ g.placed_words.length then .ok (some g.compact)
           else if 0 < g.placed_words.length then
             genLoop p6 (availableWords p6 wl6) (some "AB") rndId 0 (some g)
               g.placed_words.length c
           else genLoop p6 (availableWords p6 wl6) (some "AB") rndId 0 none 0 c) := rfl
    rw [h1, htry]
    rfl
  refine ⟨(Grid.init 1 1).compact, ?_, by decide, by decide, by decide⟩
  calc generate p6 wl6 (some "AB") rndId
      = genLoop p6 (availableWords p6 wl6) (some "AB") rndId 1 none 0 0 := rfl
    _ = .ok (some ((Grid.init 1 1).compact)) := hgen

/-- C6 (corrected).  Every grid the freeform generator returns is the
compaction of one of its attempt grids, so whenever it holds any letter its
first and last rows and columns each bear a letter (a letterless output —
reachable when the target is zero — is the 1x1 empty grid).  The 5x5
generator, by contrast, hands out its best grid uncompacted: the result is
always exactly 5x5, whether or not its border rows and columns hold
letters. -/
theorem C6_generator_outputs (p : GenParams) (p5 : Gen5Params) (wl wl5 : List Word)
    (sw sw5 : Option String) (bp : Option Int) (rnd rnd5 : RandSrc) :
    (∀ h : Grid, generate p wl sw rnd = .ok (some h) →
      (∃ g : Grid, h = g.compact) ∧
      (h.hasAnyLetter = true →
        h.rowHasLetter 0 = true ∧ h.rowHasLetter (h.rows - 1) = true ∧
        h.colHasLetter 0 = true ∧ h.colHasLetter (h.cols - 1) = true)) ∧
    (∀ h : Grid, generate5 p5 wl5 sw5 bp rnd5 = .ok (some h) →
      h.rows = 5 ∧ h.cols = 5) := by
  constructor
  · intro h hh
    have hg : ∃ g : Grid, h = g.compact := by
      unfold generate at hh
      dsimp only at hh
      by_cases hlt : (availableWords p wl).length < p.target_words
      · rw [if_pos hlt] at hh
        simp at hh
      · rw [if_neg hlt] at hh
        exact genLoop_compact p.max_attempts none 0 0 h hh
    obtain ⟨g, rfl⟩ := hg
    refine ⟨⟨g, rfl⟩, ?_⟩
    intro hletters
    have hgl : g.hasAnyLetter = true := by
      by_contra hng
      have hfe : g.filledCoords = [] := by
        by_contra hfne
        exact hng ((hasAnyLetter_iff g).mpr hfne)
      exact (hasAnyLetter_iff g.compact).mp hletters (compact_letterless g hfe)
    exact compact_borders g hgl
  · intro h hh
    unfold generate5 at hh
    dsimp only at hh
    by_cases hlt : (if (filter_with_clues (filterFor5x5 wl5)).length < p5.target_words
        then filterFor5x5 wl5 else filter_with_clues (filterFor5x5 wl5)).length <
        p5.target_words
    · rw [if_pos hlt] at hh
      simp at hh
    · rw [if_neg hlt] at hh
      exact gen5Loop_dims p5.max_attempts none 0 0 h
        (fun b hb => Option.noConfusion hb) hh

/-! ## Claim C7: an unmatched explicit seed word -/

/-- Parameters exercising C7/C8: target 1, one three-letter candidate. -/
def p7 : GenParams :=
  { target_words := 1, min_word_length := 3, max_word_length := 3,
    grid_size := 5, max_attempts := 1 }

def wl7 : List Word :=
  [{ word := ['A', 'B', 'C'], score := 50, clue := some ("c") }]

/-- The grid of C7's counterexample run: `ABC` placed at the center of an
empty 5x5 grid. -/
def g7 : Grid :=
  match (Grid.init 5 5).place_word ['A', 'B', 'C'] "c" 2 1 .ACROSS with
  | some (_, h) => h
  | none => Grid.init 5 5

/-- C7's counterexample: the empty string is an explicitly supplied seed word
matching no candidate, yet Python's `if seed_word:` treats it as absent, so
the generator falls through to a random seed and returns a grid instead of
failing. -/
theorem C7_counterexample :
    (∀ w ∈ availableWords p7 wl7,
      ¬ w.word.map Char.toUpper = ("".data.map Char.toUpper)) ∧
    generate p7 wl7 (some "") rndId = .ok (some g7.compact) := by
  refine ⟨by decide, ?_⟩
  have hfill : fillLoop rndId 1 (availableWords p7 wl7) g7 [['A', 'B', 'C']] 0 1 =
      .ok (g7, 1) :=
    fillLoop_exit _ _ _ _ _ _ _ (by decide)
  have htry : tryGenerate p7 (availableWords p7 wl7) (some "") rndId 0 =
      .ok (some g7, 1) := by
    have h1 : tryGenerate p7 (availableWords p7 wl7) (some "") rndId 0 =
        (match fillLoop rndId 1 (availableWords p7 wl7) g7 [['A', 'B', 'C']] 0 1 with
         | .error _ => (.error () : Except Unit (Option Grid × Nat))
         | .ok (g2, c) => .ok (some g2, c)) := rfl
    rw [h1, hfill]
  have hgen : genLoop p7 (availableWords p7 wl7) (some "") rndId 1 none 0 0 =
      .ok (some g7.compact) := by
    have h1 : genLoop p7 (availableWords p7 wl7) (some "") rndId 1 none 0 0 =
        (match tryGenerate p7 (availableWords p7 wl7) (some "") rndId 0 with
         | .error _ => (.error () : Except Unit (Option Grid))
         | .ok (none, c) =>
           genLoop p7 (availableWords p7 wl7) (some "") rndId 0 none 0 c
         | .ok (some g, c) =>
           if p7.target_words ≤ g.placed_words.length then .ok (some g.compact)
           else if 0 < g.placed_words.length then
             genLoop p7 (availableWords p7 wl7) (some "") rndId 0 (some g)
               g.placed_words.length c
           else genLoop p7 (availableWords p7 wl7) (some "") rndId 0 none 0 c) := rfl
    rw [h1, htry]
    rfl
  calc generate p7 wl7 (some "") rndId
      = genLoop p7 (availableWords p7 wl7) (some "") rndId 1 none 0 0 := rfl
    _ = .ok (some g7.compact) := hgen

/-- C7 (corrected).  For every non-empty explicit seed word that matches no
word of the length-filtered candidate list case-insensitively, `generate`
returns the failure marker `None`, whatever the attempt budget: every attempt
misses the lookup, and no best grid ever accumulates.  (The proviso `s ≠ ""`
is necessary: an empty seed string is falsy in Python, and the source then
draws a random seed instead of failing.) -/
theorem C7_seed_not_found (p : GenParams) (wl : List Word) (rnd : RandSrc)
    (s : String) (hs : s ≠ "")
    (hmiss : ∀ w ∈ availableWords p wl,
      ¬ w.word.map Char.toUpper = s.data.map Char.toUpper) :
    generate p wl (some s) rnd = .ok none := by
  have hfind : (availableWords p wl).find? (fun w =>
      w.word.map Char.toUpper = s.data.map Char.toUpper) = none := by
    rw [List.find?_eq_none]
    intro w hw
    simpa using hmiss w hw
  have hsel : ∀ ctr, selectSeed rnd (availableWords p wl) (some s) ctr =
      .ok (none, ctr) := by
    intro ctr
    unfold selectSeed
    dsimp only
    rw [if_neg hs, hfind]
  have htry : ∀ ctr, tryGenerate p (availableWords p wl) (some s) rnd ctr =
      .ok (none, ctr) := by
    intro ctr
    unfold tryGenerate
    rw [hsel ctr]
  have hloop : ∀ fuel ctr,
      genLoop p (availableWords p wl) (some s) rnd fuel none 0 ctr = .ok none := by
    intro fuel
    induction fuel with
    | zero => intro ctr; rfl
    | succ n ih =>
      intro ctr
      have h1 : genLoop p (availableWords p wl) (some s) rnd (n + 1) none 0 ctr =
          (match tryGenerate p (availableWords p wl) (some s) rnd ctr with
           | .error _ => (.error () : Except Unit (Option Grid))
           | .ok (none, c) => genLoop p (availableWords p wl) (some s) rnd n none 0 c
           | .ok (some g, c) =>
             if p.target_words ≤ g.placed_words.length then .ok (some g.compact)
             else if 0 < g.placed_words.length then
               genLoop p (availableWords p wl) (some s) rnd n (some g)
                 g.placed_words.length c
             else genLoop p (availableWords p wl) (some s) rnd n none 0 c) := rfl
      rw [h1, htry ctr]
      exact ih ctr
  unfold generate
  dsimp only
  by_cases hlt : (availableWords p wl).length < p.target_words
  · rw [if_pos hlt]
  · rw [if_neg hlt]
    exact hloop p.max_attempts 0

/-- Witness for `C7_seed_not_found`: the seed `X` matches no candidate, so
the run fails. -/
theorem C7_witness : generate p7 wl7 (some "X") rndId = .ok none :=
  C7_seed_not_found p7 wl7 rndId "X" (by decide) (by decide)

/-! ## Claim C8: target 1 with non-empty candidates -/

/-- The cells of a fresh grid, position by position. -/
theorem init_get_cell (n m : Nat) (r c : Int) :
    (Grid.init n m).get_cell r c =
      if 0 ≤ r ∧ r < (n : Int) ∧ 0 ≤ c ∧ c < (m : Int) then some (Cell.init r c)
      else none := by
  unfold Grid.init Grid.get_cell
  dsimp only
  split
  · rename_i hcond
    have h1 : Int.ofNat r.toNat = r := by
      rw [Int.ofNat_eq_coe]
      omega
    have h2 : Int.ofNat c.toNat = c := by
      rw [Int.ofNat_eq_coe]
      omega
    rw [h1, h2]
  · rfl

/-- A fresh grid has no letter anywhere. -/
theorem init_cellHasLetter (n m : Nat) (r c : Int) :
    (Grid.init n m).cellHasLetter r c = false := by
  unfold Grid.cellHasLetter
  rcases hg : (Grid.init n m).get_cell r c with _ | cell
  · rfl
  · rw [init_get_cell] at hg
    by_cases hcond : 0 ≤ r ∧ r < (n : Int) ∧ 0 ≤ c ∧ c < (m : Int)
    · rw [if_pos hcond, Option.some.injEq] at hg
      rw [← hg]
      rfl
    · rw [if_neg hcond] at hg
      cases hg

theorem getD_cons_mem {α : Type} (y : α) (ys : List α) (i : Nat) :
    (y :: ys).getD i y ∈ y :: ys := by
  by_cases hi : i < (y :: ys).length
  · rw [List.getD_eq_getElem _ _ hi]
    exact List.getElem_mem hi
  · rw [List.getD_eq_default _ _ (Nat.le_of_not_lt hi)]
    exact List.mem_cons_self y ys

/-- On a non-empty list, `random.choice` returns an element of the list and
advances the counter. -/
theorem randChoice_ne_nil {α : Type} (rnd : RandSrc) (ctr : Nat) (l : List α)
    (hne : l ≠ []) : ∃ x, randChoice rnd ctr l = .ok (x, ctr + 1) ∧ x ∈ l := by
  rcases l with _ | ⟨y, ys⟩
  · exact absurd rfl hne
  · exact ⟨(y :: ys).getD (rnd.choice ctr (ys.length + 1) % (ys.length + 1)) y,
      rfl, getD_cons_mem y ys _⟩

/-- With a non-empty available list, the freeform seed pick succeeds and
returns an available word. -/
theorem pickSeed_mem (rnd : RandSrc) (available : List Word) (ctr : Nat)
    (hne : available ≠ []) :
    ∃ w, pickSeed rnd available ctr = .ok (w, ctr + 1) ∧ w ∈ available := by
  by_cases hc : (available.filter fun w =>
      5 ≤ w.word.length ∧ w.word.length ≤ 8).isEmpty = true
  · obtain ⟨x, hx, hxm⟩ := randChoice_ne_nil rnd ctr available hne
    refine ⟨x, ?_, hxm⟩
    unfold pickSeed
    dsimp only
    rw [if_pos hc]
    exact hx
  · have hfne : (available.filter fun w =>
        5 ≤ w.word.length ∧ w.word.length ≤ 8) ≠ [] := by
      intro hnil
      rw [hnil] at hc
      exact hc rfl
    obtain ⟨x, hx, hxm⟩ := randChoice_ne_nil rnd ctr _ hfne
    refine ⟨x, ?_, List.mem_of_mem_filter hxm⟩
    unfold pickSeed
    dsimp only
    rw [if_neg hc]
    exact hx

/-- A word placement fully inside an empty square grid passes
`can_place_word`: every covered cell is in bounds, white and letter-free,
and no neighbor holds a letter. -/
theorem can_place_init_across (n : Nat) (word : List Char) (row col : Int)
    (hr : 0 ≤ row) (hrn : row < (n : Int)) (hc : 0 ≤ col)
    (hce : col + (word.length : Int) ≤ (n : Int)) :
    (Grid.init n n).can_place_word word row col .ACROSS = true := by
  rw [can_place_word_iff_spec]
  refine ⟨?_, ?_, init_cellHasLetter _ _ _ _, init_cellHasLetter _ _ _ _⟩
  · intro i hi
    rw [List.length_map] at hi
    have hcond : 0 ≤ (posAt row col .ACROSS i).1 ∧
        (posAt row col .ACROSS i).1 < (n : Int) ∧
        0 ≤ (posAt row col .ACROSS i).2 ∧
        (posAt row col .ACROSS i).2 < (n : Int) := by
      dsimp only [posAt]
      omega
    refine ⟨Cell.init (posAt row col .ACROSS i).1 (posAt row col .ACROSS i).2,
      ?_, rfl, Or.inl rfl⟩
    rw [init_get_cell, if_pos hcond]
  · intro i hi cell hcell hlet
    exact ⟨init_cellHasLetter _ _ _ _, init_cellHasLetter _ _ _ _⟩

/-- Parameters exercising C8's counterexample: the defaults with target 1;
the length filter empties the candidate list. -/
def p8 : GenParams :=
  { target_words := 1, min_word_length := 3, max_word_length := 10,
    grid_size := 20, max_attempts := 100 }

def wl8 : List Word :=
  [{ word := ['A', 'B'], score := 50, clue := some ("c") }]

/-- C8's counterexample: the candidate set is non-empty and the target is 1,
yet `generate` fails — the two-letter candidate is removed by the
`min_word_length = 3` filter, and the too-few-words guard returns `None`
before any attempt. -/
theorem C8_counterexample :
    wl8 ≠ [] ∧ filter_with_clues wl8 = wl8 ∧
    generate p8 wl8 none rndId = .ok none := by
  refine ⟨by decide, by decide, ?_⟩
  rfl

/-- C8 (corrected).  With target 1, no explicit seed, at least one attempt, a
non-empty length-filtered candidate list, and every filtered candidate
non-empty and no longer than the grid, `generate` succeeds on its first
attempt: the (compacted) result holds exactly one placed word, the uppercased
seed drawn from the filtered candidates.  (Without these provisos the claim
fails: the length filter can empty a non-empty candidate set, an over-long
seed cannot be placed, and a zero attempt budget never tries.) -/
theorem C8_target_one (p : GenParams) (wl : List Word) (rnd : RandSrc)
    (htarget : p.target_words = 1) (hattempts : 1 ≤ p.max_attempts)
    (havail : availableWords p wl ≠ [])
    (hfit : ∀ w ∈ availableWords p wl,
      0 < w.word.length ∧ w.word.length ≤ p.grid_size) :
    ∃ (h : Grid) (w : Word), generate p wl none rnd = .ok (some h) ∧
      w ∈ availableWords p wl ∧
      h.placed_words.map PlacedWord.word = [w.word.map Char.toUpper] := by
  obtain ⟨w0, hpick, hmem⟩ := pickSeed_mem rnd (availableWords p wl) 0 havail
  obtain ⟨hpos, hle⟩ := hfit w0 hmem
  have hsel : selectSeed rnd (availableWords p wl) none 0 = .ok (some w0, 1) := by
    unfold selectSeed
    rw [hpick]
    rfl
  have hcan : (Grid.init p.grid_size p.grid_size).can_place_word w0.word
      ((p.grid_size / 2 : Nat) : Int)
      (((p.grid_size / 2 : Nat) : Int) - ((w0.word.length / 2 : Nat) : Int))
      .ACROSS = true :=
    can_place_init_across p.grid_size w0.word _ _
      (by omega) (by omega) (by omega) (by omega)
  obtain ⟨pw, g', hplace, hpwword, -, -, -, -, hrows, hcols, hplaced, -, -, -⟩ :=
    place_word_success (Grid.init p.grid_size p.grid_size) w0.word
      (clueOr w0.clue (bracketed w0.word))
      ((p.grid_size / 2 : Nat) : Int)
      (((p.grid_size / 2 : Nat) : Int) - ((w0.word.length / 2 : Nat) : Int))
      .ACROSS (List.length_pos.mp hpos) hcan
  have hlen1 : g'.placed_words.length = 1 := by
    rw [hplaced]
    rfl
  have htry : tryGenerate p (availableWords p wl) none rnd 0 = .ok (some g', 1) := by
    unfold tryGenerate
    rw [hsel]
    dsimp only
    rw [hplace]
    dsimp only
    rw [fillLoop_exit rnd p.target_words (availableWords p wl) g'
      [w0.word.map Char.toUpper] 0 1 (by rw [hlen1, htarget]; omega)]
  obtain ⟨k, hk⟩ : ∃ k, p.max_attempts = k + 1 := ⟨p.max_attempts - 1, by omega⟩
  have hgen : genLoop p (availableWords p wl) none rnd (k + 1) none 0 0 =
      .ok (some g'.compact) := by
    have h1 : genLoop p (availableWords p wl) none rnd (k + 1) none 0 0 =
        (match tryGenerate p (availableWords p wl) none rnd 0 with
         | .error _ => (.error () : Except Unit (Option Grid))
         | .ok (none, c) => genLoop p (availableWords p wl) none rnd k none 0 c
         | .ok (some g, c) =>
           if p.target_words ≤ g.placed_words.length then .ok (some g.compact)
           else if 0 < g.placed_words.length then
             genLoop p (availableWords p wl) none rnd k (some g)
               g.placed_words.length c
           else genLoop p (availableWords p wl) none rnd k none 0 c) := rfl
    rw [h1, htry]
    dsimp only
    rw [if_pos (by rw [hlen1, htarget])]
  refine ⟨g'.compact, w0, ?_, hmem, ?_⟩
  · unfold generate
    dsimp only
    rw [if_neg ?_, hk]
    · exact hgen
    · rw [htarget]
      have hlp : 0 < (availableWords p wl).length := List.length_pos.mpr havail
      omega
  · rw [compact_placed_words, hplaced]
    rw [show (Grid.init p.grid_size p.grid_size).placed_words ++ [pw] = [pw] from rfl]
    exact congrArg (fun x => [x]) hpwword

/-- Witness for `C8_target_one`: one three-letter candidate fitting a 5x5
grid, target 1. -/
theorem C8_witness :
    ∃ (h : Grid) (w : Word), generate p7 wl7 none rndId = .ok (some h) ∧
      w ∈ availableWords p7 wl7 ∧
      h.placed_words.map PlacedWord.word = [w.word.map Char.toUpper] :=
  C8_target_one p7 wl7 rndId (by decide) (by decide) (by decide) (by decide)

end Crossword
